import Mathlib

/-!
Verification of the message-formatting and log-tailing core of the `ilya`
JSON-RPC proxy.  The definitions below are a shallow embedding of the
TypeScript sources (`src/colors.ts` / result formatter, the message
formatter, `src/utils.ts`, `src/watch.ts`).  JavaScript runtime behavior
(JSON values, truthiness, template-literal coercion, `JSON.parse` /
`JSON.stringify`, exceptions thrown by property access on `null` or by
calling missing methods) is modelled explicitly; each definition's doc
comment names the source function it embeds.
-/

/-- A JSON value as produced by the JavaScript `JSON.parse` builtin.
Numbers are restricted to integers (the repository's protocol traffic and
tests only use integral numbers); object member lists carry insertion
order, with duplicate keys already collapsed as `JSON.parse` does
(last value wins, first position kept). -/
inductive Json where
  | null
  | bool (b : Bool)
  | num (n : Int)
  | str (s : String)
  | arr (xs : List Json)
  | obj (fs : List (String × Json))

mutual
/-- Structural equality on `Json`; on primitive values this coincides with
the JavaScript `SameValueZero` comparison used by `Map` keys. -/
def Json.beq : Json → Json → Bool
  | .null, .null => true
  | .bool a, .bool b => a == b
  | .num a, .num b => a == b
  | .str a, .str b => a == b
  | .arr xs, .arr ys => Json.beqList xs ys
  | .obj fs, .obj gs => Json.beqFields fs gs
  | _, _ => false

def Json.beqList : List Json → List Json → Bool
  | [], [] => true
  | x :: xs, y :: ys => Json.beq x y && Json.beqList xs ys
  | _, _ => false

def Json.beqFields : List (String × Json) → List (String × Json) → Bool
  | [], [] => true
  | (k, v) :: fs, (l, w) :: gs => k == l && Json.beq v w && Json.beqFields fs gs
  | _, _ => false
end

/-- JavaScript truthiness of a JSON value (`undefined` is handled at the
use sites via `Option`). -/
def truthy : Json → Bool
  | .null => false
  | .bool b => b
  | .num n => n != 0
  | .str s => !s.isEmpty
  | .arr _ => true
  | .obj _ => true

/-- Property access `v.k`: a field of an object, `undefined` (`none`)
otherwise.  Access on `Json.null` throws in JavaScript; the throw is
modelled at the call sites that can receive `null`. -/
def getField : Json → String → Option Json
  | .obj fs, k => fs.lookup k
  | _, _ => none

/-- JavaScript truthiness of a possibly-`undefined` value. -/
def truthyOpt : Option Json → Bool
  | none => false
  | some v => truthy v

/-- `Object.keys` of an arbitrary value: member names for objects, index
strings for arrays and strings, empty otherwise. -/
def jsKeys : Json → List String
  | .obj fs => fs.map (fun kv => kv.1)
  | .arr xs => (List.range xs.length).map (fun i => toString i)
  | .str s => (List.range s.length).map (fun i => toString i)
  | _ => []

mutual
/-- JavaScript string coercion of a value, as used by template literals:
`String(null) = "null"`, arrays join their elements with commas
(`null` elements render empty), plain objects render `[object Object]`. -/
def templateToString : Json → String
  | .null => "null"
  | .bool true => "true"
  | .bool false => "false"
  | .num n => toString n
  | .str s => s
  | .arr xs => templateJoin xs
  | .obj _ => "[object Object]"

def templateJoin : List Json → String
  | [] => ""
  | [x] => (match x with | .null => "" | v => templateToString v)
  | x :: xs =>
      (match x with | .null => "" | v => templateToString v) ++ "," ++ templateJoin xs
end

/-- One character of a JSON string literal, escaped as `JSON.stringify`
escapes it. -/
def escapeChar (ch : Char) : String :=
  if ch = '"' then "\\\""
  else if ch = '\\' then "\\\\"
  else if ch = '\n' then "\\n"
  else if ch = '\t' then "\\t"
  else if ch = '\r' then "\\r"
  else if ch = '\x08' then "\\b"
  else if ch = '\x0c' then "\\f"
  else if ch.toNat < 32 then
    let hexDigit : Nat → String := fun n =>
      if n < 10 then toString n
      else String.singleton (Char.ofNat ('a'.toNat + (n - 10)))
    "\\u00" ++ hexDigit (ch.toNat / 16) ++ hexDigit (ch.toNat % 16)
  else String.singleton ch

/-- A JSON string literal with quotes, as `JSON.stringify` renders it. -/
def quoteString (s : String) : String :=
  "\"" ++ String.join (s.data.map escapeChar) ++ "\""

mutual
/-- `JSON.stringify(v)` (compact form, no added whitespace). -/
def stringifyCompact : Json → String
  | .null => "null"
  | .bool true => "true"
  | .bool false => "false"
  | .num n => toString n
  | .str s => quoteString s
  | .arr xs => "[" ++ stringifyCompactList xs ++ "]"
  | .obj fs => "\x7b" ++ stringifyCompactFields fs ++ "\x7d"

def stringifyCompactList : List Json → String
  | [] => ""
  | [x] => stringifyCompact x
  | x :: xs => stringifyCompact x ++ "," ++ stringifyCompactList xs

def stringifyCompactFields : List (String × Json) → String
  | [] => ""
  | [(k, v)] => quoteString k ++ ":" ++ stringifyCompact v
  | (k, v) :: fs => quoteString k ++ ":" ++ stringifyCompact v ++ "," ++ stringifyCompactFields fs
end

/-- `n` spaces. -/
def spacesOf (n : Nat) : String :=
  String.mk (List.replicate n ' ')

mutual
/-- `JSON.stringify(v, null, 2)` at current indentation `ind`: the
pretty-printed form with two-space indentation used by the formatters. -/
def stringifyPretty (v : Json) (ind : Nat) : String :=
  match v with
  | .arr [] => "[]"
  | .obj [] => "\x7b\x7d"
  | .arr xs => "[\n" ++ stringifyPrettyList xs (ind + 2) ++ "\n" ++ spacesOf ind ++ "]"
  | .obj fs => "\x7b\n" ++ stringifyPrettyFields fs (ind + 2) ++ "\n" ++ spacesOf ind ++ "\x7d"
  | x => stringifyCompact x

def stringifyPrettyList : List Json → Nat → String
  | [], _ => ""
  | [x], ind => spacesOf ind ++ stringifyPretty x ind
  | x :: xs, ind => spacesOf ind ++ stringifyPretty x ind ++ ",\n" ++ stringifyPrettyList xs ind

def stringifyPrettyFields : List (String × Json) → Nat → String
  | [], _ => ""
  | [(k, v)], ind => spacesOf ind ++ quoteString k ++ ": " ++ stringifyPretty v ind
  | (k, v) :: fs, ind =>
      spacesOf ind ++ quoteString k ++ ": " ++ stringifyPretty v ind ++ ",\n" ++
        stringifyPrettyFields fs ind
end

/-! ### A model of the `JSON.parse` builtin

Total recursive-descent parser over the character list, recursing
structurally on a fuel counter.  It covers the JSON grammar as exercised
by this repository: integral numbers (no fraction/exponent part) and
string escapes other than surrogate-pair `\uXXXX` sequences are the only
restrictions, and neither is reachable from any theorem input below. -/

/-- JSON whitespace. -/
def jsonWs (c : Char) : Bool :=
  c = ' ' || c = '\t' || c = '\n' || c = '\r'

/-- Drop leading JSON whitespace. -/
def dropWs : List Char → List Char
  | c :: cs => if jsonWs c then dropWs cs else c :: cs
  | [] => []

/-- Value of a hexadecimal digit. -/
def hexDigitVal (c : Char) : Option Nat :=
  if '0' ≤ c ∧ c ≤ '9' then some (c.toNat - '0'.toNat)
  else if 'a' ≤ c ∧ c ≤ 'f' then some (c.toNat - 'a'.toNat + 10)
  else if 'A' ≤ c ∧ c ≤ 'F' then some (c.toNat - 'A'.toNat + 10)
  else none

/-- Body of a JSON string literal, after the opening quote.  Unescaped
control characters are rejected as `JSON.parse` rejects them; `\uXXXX`
is accepted for non-surrogate code points. -/
def parseStrBody : List Char → Option (String × List Char)
  | [] => none
  | '"' :: rest => some ("", rest)
  | '\\' :: 'u' :: a :: b :: c :: d :: rest => do
      let va ← hexDigitVal a
      let vb ← hexDigitVal b
      let vc ← hexDigitVal c
      let vd ← hexDigitVal d
      let n := ((va * 16 + vb) * 16 + vc) * 16 + vd
      if n ≥ 0xd800 ∧ n ≤ 0xdfff then none
      else do
        let (s, r) ← parseStrBody rest
        some (String.singleton (Char.ofNat n) ++ s, r)
  | '\\' :: e :: rest => do
      let ch ← match e with
        | '"' => some '"'
        | '\\' => some '\\'
        | '/' => some '/'
        | 'n' => some '\n'
        | 't' => some '\t'
        | 'r' => some '\r'
        | 'b' => some '\x08'
        | 'f' => some '\x0c'
        | _ => none
      let (s, r) ← parseStrBody rest
      some (String.singleton ch ++ s, r)
  | c :: rest =>
      if c.toNat < 32 then none
      else do
        let (s, r) ← parseStrBody rest
        some (String.singleton c ++ s, r)

/-- Leading decimal-digit run. -/
def takeDigitRun : List Char → List Char × List Char
  | c :: cs =>
      if c.isDigit then
        let (ds, r) := takeDigitRun cs
        (c :: ds, r)
      else ([], c :: cs)
  | [] => ([], [])

/-- Digits to a natural number. -/
def digitsToNat (ds : List Char) : Nat :=
  ds.foldl (fun acc c => acc * 10 + (c.toNat - '0'.toNat)) 0

/-- A JSON integer numeral: optional minus sign, then `0` or a nonzero
digit followed by digits, with no leading zeros and (model restriction)
no fraction or exponent part. -/
def parseIntNumeral : List Char → Option (Json × List Char)
  | cs =>
      let (neg, cs1) := match cs with
        | '-' :: r => (true, r)
        | _ => (false, cs)
      match cs1 with
      | [] => none
      | c :: r =>
          if ¬ c.isDigit then none
          else
            let (ds, rest) :=
              if c = '0' then ([c], r)
              else
                let (more, rest') := takeDigitRun r
                (c :: more, rest')
            match rest with
            | '.' :: _ => none
            | 'e' :: _ => none
            | 'E' :: _ => none
            | _ =>
                let v : Int := (digitsToNat ds : Nat)
                some (.num (if neg then -v else v), rest)

/-- Insert a member as `JSON.parse` does with duplicate keys: the last
value wins, at the first occurrence's position. -/
def setMember : List (String × Json) → String → Json → List (String × Json)
  | [], k, v => [(k, v)]
  | (k', v') :: rest, k, v =>
      if k' = k then (k', v) :: rest else (k', v') :: setMember rest k v

mutual
/-- One JSON value (leading whitespace allowed), fuel-bounded. -/
def parseVal : Nat → List Char → Option (Json × List Char)
  | 0, _ => none
  | fuel + 1, cs =>
      match dropWs cs with
      | 'n' :: 'u' :: 'l' :: 'l' :: r => some (.null, r)
      | 't' :: 'r' :: 'u' :: 'e' :: r => some (.bool true, r)
      | 'f' :: 'a' :: 'l' :: 's' :: 'e' :: r => some (.bool false, r)
      | '"' :: r => (parseStrBody r).map (fun p => (.str p.1, p.2))
      | '[' :: r =>
          (match dropWs r with
           | ']' :: r' => some (.arr [], r')
           | r' => (parseElems fuel r').map (fun p => (.arr p.1, p.2)))
      | '\x7b' :: r =>
          (match dropWs r with
           | '\x7d' :: r' => some (.obj [], r')
           | r' => (parseMembers fuel r' []).map (fun p => (.obj p.1, p.2)))
      | cs' => parseIntNumeral cs'

/-- One-or-more comma-separated array elements, up to the closing `]`. -/
def parseElems : Nat → List Char → Option (List Json × List Char)
  | 0, _ => none
  | fuel + 1, cs => do
      let (v, r) ← parseVal fuel cs
      match dropWs r with
      | ',' :: r' => do
          let (vs, r'') ← parseElems fuel r'
          some (v :: vs, r'')
      | ']' :: r' => some ([v], r')
      | _ => none

/-- One-or-more `"key": value` members, up to the closing brace;
`acc` carries the members seen so far for duplicate-key collapsing. -/
def parseMembers : Nat → List Char → List (String × Json) → Option (List (String × Json) × List Char)
  | 0, _, _ => none
  | fuel + 1, cs, acc =>
      match dropWs cs with
      | '"' :: r => do
          let (key, r1) ← parseStrBody r
          match dropWs r1 with
          | ':' :: r2 => do
              let (v, r3) ← parseVal fuel r2
              let acc' := setMember acc key v
              match dropWs r3 with
              | ',' :: r4 => parseMembers fuel r4 acc'
              | '\x7d' :: r4 => some (acc', r4)
              | _ => none
          | _ => none
      | _ => none
end

/-- The `JSON.parse` builtin: parse one value, require only trailing
whitespace after it.  `none` models the thrown `SyntaxError`. -/
def parseJson (s : String) : Option Json :=
  match parseVal (4 * s.length + 16) s.data with
  | some (j, rest) => if dropWs rest = [] then some j else none
  | none => none

/-! ### Text utilities and colors (`src/utils.ts`, `src/colors.ts`) -/

/-- `truncate` from `src/utils.ts`: cap a string at `max` characters,
replacing the tail with `"..."` when it exceeds the cap. -/
def truncate (str : String) (max : Nat := 200) : String :=
  if str.length ≤ max then str else str.take (max - 3) ++ "..."

/-- `s.startsWith(pat)` (structurally recursive rendering of the builtin). -/
def strStartsWith (s pat : String) : Bool :=
  pat.data.isPrefixOf s.data

/-- `s.endsWith(pat)` (structurally recursive rendering of the builtin). -/
def strEndsWith (s pat : String) : Bool :=
  pat.data.isSuffixOf s.data

/-- ASCII whitespace trimmed by `String.prototype.trim` (the inputs here
contain no exotic Unicode space). -/
def jsTrimWs (c : Char) : Bool :=
  c = ' ' || c = '\t' || c = '\n' || c = '\r' || c = '\x0c' || c = '\x0b'

/-- `s.trim()`: strip leading and trailing whitespace. -/
def jsTrim (s : String) : String :=
  String.mk (((s.data.dropWhile jsTrimWs).reverse.dropWhile jsTrimWs).reverse)

/-- `String.prototype.split` with a one-character separator, on the
character list: JavaScript `"".split(sep)` is `[""]`, a trailing
separator yields a trailing empty piece. -/
def splitOnCharList (sep : Char) : List Char → List (List Char)
  | [] => [[]]
  | c :: cs =>
      let rest := splitOnCharList sep cs
      if c = sep then [] :: rest
      else
        match rest with
        | r :: rs => (c :: r) :: rs
        | [] => [[c]]

/-- `text.split("\n")`. -/
def splitNewlines (s : String) : List String :=
  (splitOnCharList '\n' s.data).map String.mk

/-- The ANSI color palette of `src/colors.ts`. -/
structure Colors where
  RESET : String
  BOLD : String
  DIM : String
  RED : String
  GREEN : String
  YELLOW : String
  BLUE : String
  MAGENTA : String
  CYAN : String
  WHITE : String

/-- `createColors` from `src/colors.ts`: escape codes on a TTY, empty
strings otherwise. -/
def createColors (isTTY : Bool) : Colors :=
  if isTTY then
    { RESET := "\x1b[0m", BOLD := "\x1b[1m", DIM := "\x1b[2m", RED := "\x1b[31m",
      GREEN := "\x1b[32m", YELLOW := "\x1b[33m", BLUE := "\x1b[34m",
      MAGENTA := "\x1b[35m", CYAN := "\x1b[36m", WHITE := "\x1b[37m" }
  else
    { RESET := "", BOLD := "", DIM := "", RED := "", GREEN := "", YELLOW := "",
      BLUE := "", MAGENTA := "", CYAN := "", WHITE := "" }

/-- `PLAIN` from `src/colors.ts`: the all-empty palette. -/
def PLAIN : Colors :=
  { RESET := "", BOLD := "", DIM := "", RED := "", GREEN := "", YELLOW := "",
    BLUE := "", MAGENTA := "", CYAN := "", WHITE := "" }

/-- `methodColor` from `src/colors.ts`, on its declared domain
`string | undefined` (the empty string is falsy in the `!method` guard). -/
def methodColor (method : Option String) (colors : Colors) : String :=
  match method with
  | none => colors.WHITE
  | some m =>
      if m.isEmpty then colors.WHITE
      else if strStartsWith m "initialize" then colors.MAGENTA
      else if strStartsWith m "tools/" then colors.GREEN
      else if strStartsWith m "resources/" then colors.CYAN
      else if strStartsWith m "prompts/" then colors.YELLOW
      else if strStartsWith m "notifications/" then colors.BLUE
      else colors.WHITE

/-! ### Recursive payload transforms (result formatter) -/

mutual
/-- `truncateArrays` from the result formatter: cap every array at
`maxItems` elements, appending a `"... +N more"` marker when elements were
dropped, recursing into array elements and object member values. -/
def truncateArrays (v : Json) (maxItems : Nat := 3) : Json :=
  match v with
  | .arr xs =>
      let truncated := truncateArraysTake maxItems xs maxItems
      if xs.length > maxItems then
        .arr (truncated ++ [.str ("... +" ++ toString (xs.length - maxItems) ++ " more")])
      else .arr truncated
  | .obj fs => .obj (truncateArraysFields fs maxItems)
  | x => x

/-- `obj.slice(0, n).map((item) => truncateArrays(item, maxItems))`,
fused into one structural pass. -/
def truncateArraysTake (n : Nat) (xs : List Json) (maxItems : Nat) : List Json :=
  match n, xs with
  | 0, _ => []
  | _, [] => []
  | n + 1, x :: rest => truncateArrays x maxItems :: truncateArraysTake n rest maxItems

/-- Member-value recursion of `truncateArrays`. -/
def truncateArraysFields (fs : List (String × Json)) (maxItems : Nat) : List (String × Json) :=
  match fs with
  | [] => []
  | (k, v) :: rest => (k, truncateArrays v maxItems) :: truncateArraysFields rest maxItems
end

mutual
/-- `truncateStringValues` from the result formatter: truncate every
string value longer than `maxLen`, recursing through arrays and objects. -/
def truncateStringValues (v : Json) (maxLen : Nat := 100) : Json :=
  match v with
  | .str s => if s.length > maxLen then .str (s.take (maxLen - 3) ++ "...") else .str s
  | .arr xs => .arr (truncateStringValuesList xs maxLen)
  | .obj fs => .obj (truncateStringValuesFields fs maxLen)
  | x => x

/-- Element recursion of `truncateStringValues`. -/
def truncateStringValuesList (xs : List Json) (maxLen : Nat) : List Json :=
  match xs with
  | [] => []
  | x :: rest => truncateStringValues x maxLen :: truncateStringValuesList rest maxLen

/-- Member-value recursion of `truncateStringValues`. -/
def truncateStringValuesFields (fs : List (String × Json)) (maxLen : Nat) : List (String × Json) :=
  match fs with
  | [] => []
  | (k, v) :: rest => (k, truncateStringValues v maxLen) :: truncateStringValuesFields rest maxLen
end

/-- The guard on the `graphql` noise field:
`value !== null && typeof value === "object" && Object.keys(value).length === 0`
(an empty array also satisfies it, since `typeof [] === "object"`). -/
def isEmptyObjectLike : Json → Bool
  | .obj [] => true
  | .arr [] => true
  | _ => false

mutual
/-- `removeNoiseFields` from the result formatter: drop `id`, `timestamp`
and empty-object-like `graphql` members, but only from objects that are
direct elements of an array (`insideArray`); member values recurse with
`insideArray = false`, array elements with `true`. -/
def removeNoiseFields (v : Json) (insideArray : Bool := false) : Json :=
  match v with
  | .arr xs => .arr (removeNoiseFieldsElems xs)
  | .obj fs => .obj (removeNoiseFieldsMembers fs insideArray)
  | x => x

/-- Element recursion of `removeNoiseFields` (elements are inside an array). -/
def removeNoiseFieldsElems (xs : List Json) : List Json :=
  match xs with
  | [] => []
  | x :: rest => removeNoiseFields x true :: removeNoiseFieldsElems rest

/-- Member recursion of `removeNoiseFields`, with the two skip guards. -/
def removeNoiseFieldsMembers (fs : List (String × Json)) (insideArray : Bool) :
    List (String × Json) :=
  match fs with
  | [] => []
  | (k, v) :: rest =>
      if insideArray ∧ (k = "id" ∨ k = "timestamp") then
        removeNoiseFieldsMembers rest insideArray
      else if insideArray ∧ k = "graphql" ∧ isEmptyObjectLike v then
        removeNoiseFieldsMembers rest insideArray
      else
        (k, removeNoiseFields v false) :: removeNoiseFieldsMembers rest insideArray
end

/-- Is the parsed value rejected by `tryFormatJson`'s
`parsed === null || typeof parsed !== "object"` guard?  (Arrays have
`typeof "object"` and pass.) -/
def isPrimitiveOrNull : Json → Bool
  | .null => true
  | .bool _ => true
  | .num _ => true
  | .str _ => true
  | .arr _ => false
  | .obj _ => false

/-- `tryFormatJson` from the result formatter: parse, reject `null` and
primitives, then truncate arrays, strip noise fields, shorten strings and
pretty-print with two-space indentation; `none` models the `null` returned
on a parse failure. -/
def tryFormatJson (text : String) : Option String :=
  match parseJson text with
  | none => none
  | some parsed =>
      if isPrimitiveOrNull parsed then none
      else
        let truncated := truncateArrays parsed 3
        let cleaned := removeNoiseFields truncated false
        let shortened := truncateStringValues cleaned 100
        some (stringifyPretty shortened 0)

/-- The image-size computation `Math.round((data.length * 3) / 4 / 1024)`.
All intermediate doubles are exact for realistic lengths (the mantissa is
`3 * len`, and the divisors are powers of two), so the result is exactly
the round-half-up integer nearest to `3 * len / 4096`. -/
def imageSizeKB (len : Nat) : Nat :=
  (3 * len + 2048) / 4096

/-! ### The result formatter (`formatResult` and helpers)

A logger record is a `(colored, plain)` pair as passed to
`logger.write`.  A thrown exception inside `formatResult` propagates to
`formatMessage`'s `catch`; it is modelled as a `Bool` flag (`true` =
threw) paired with the records already written before the throw. -/

abbrev LogRecord := String × String

/-- A pending-request entry (`PendingRequest` in the sources).  Only a
string `method` can reach `pendingRequests.set` (see `formatMessage`), so
the field is a `String`; `toolName` keeps the raw `params.name` value. -/
structure PendingRequest where
  method : String
  toolName : Option Json
  ts : Int

/-- The `pendingRequests` map, in insertion order.  Keys compare by
`Json.beq`, which matches the `Map` SameValueZero semantics on the
primitive ids JSON-RPC uses. -/
abbrev PendingMap := List (Json × PendingRequest)

/-- `Map.get`. -/
def mapGet (m : PendingMap) (k : Json) : Option PendingRequest :=
  match m with
  | [] => none
  | (k', v) :: rest => if Json.beq k' k then some v else mapGet rest k

/-- `Map.set`: overwrite in place, else append. -/
def mapSet (m : PendingMap) (k : Json) (v : PendingRequest) : PendingMap :=
  match m with
  | [] => [(k, v)]
  | (k', v') :: rest =>
      if Json.beq k' k then (k', v) :: rest else (k', v') :: mapSet rest k v

/-- `Map.delete`: remove the (unique) matching entry. -/
def mapDelete (m : PendingMap) (k : Json) : PendingMap :=
  match m with
  | [] => []
  | (k', v') :: rest => if Json.beq k' k then rest else (k', v') :: mapDelete rest k

/-- Is this value `null`? -/
def Json.isNull : Json → Bool
  | .null => true
  | _ => false

/-- One element of `Array.prototype.join`: `undefined` and `null` render
empty, every other value via string coercion. -/
def joinElem : Option Json → String
  | none => ""
  | some .null => ""
  | some v => templateToString v

/-- `names.join(", ")` over possibly-`undefined` elements. -/
def joinComma : List (Option Json) → String
  | [] => ""
  | [x] => joinElem x
  | x :: xs => joinElem x ++ ", " ++ joinComma xs

/-- The name summary the three `*/list` branches each build:
all names joined when at most 8, else the first 6 plus a
`", ... +N more"` marker with `N = total - 6`. -/
def listSummary (names : List (Option Json)) : String :=
  if names.length ≤ 8 then joinComma names
  else joinComma (names.take 6) ++ ", ... +" ++ toString (names.length - 6) ++ " more"

/-- The body of `formatResult`'s `tools/call` loop for one content block.
`none` models a thrown exception (`block.type` on `null`, `text.split` on
a non-string with unformattable text, `truncate(uri)` on a non-string,
non-array uri). -/
def formatBlock (block : Json) (c : Colors) : Option (List LogRecord) :=
  match block with
  | .null => none
  | _ =>
      let ty := getField block "type"
      match ty with
      | some (.str "text") =>
          let textOpt := getField block "text"
          -- JSON.parse coerces a non-string argument to a string first
          let textCoerced := match textOpt with
            | none => "undefined"
            | some v => templateToString v
          (match tryFormatJson textCoerced with
           | some formatted =>
               some (("    " ++ c.DIM ++ "[text]" ++ c.RESET, "    [text]") ::
                 (splitNewlines formatted).map (fun line =>
                   ("    " ++ c.DIM ++ "    " ++ line ++ c.RESET, "        " ++ line)))
           | none =>
               match textOpt with
               | some (.str s) =>
                   some ((splitNewlines s).map (fun line =>
                     ("    " ++ c.DIM ++ "[text]" ++ c.RESET ++ " " ++ line,
                      "    [text] " ++ line)))
               | _ => none)
      | some (.str "image") =>
          let dataOpt := getField block "data"
          let size :=
            if truthyOpt dataOpt then
              match dataOpt with
              | some (.str s) => toString (imageSizeKB s.length) ++ "KB"
              | some (.arr xs) => toString (imageSizeKB xs.length) ++ "KB"
              | _ => "NaNKB"
            else "?"
          let mt := match getField block "mimeType" with
            | some v => if truthy v then templateToString v else "?"
            | none => "?"
          some [("    " ++ c.DIM ++ "[image " ++ mt ++ "]" ++ c.RESET ++ " " ++ size,
                 "    [image " ++ mt ++ "] " ++ size)]
      | some (.str "resource") =>
          let uriOpt := match getField block "resource" with
            | some rv => getField rv "uri"
            | none => none
          let uriVal : Json := match uriOpt with
            | some v => if truthy v then v else .str "?"
            | none => .str "?"
          (match uriVal with
           | .str s =>
               let t := truncate s 200
               some [("    " ++ c.DIM ++ "[resource]" ++ c.RESET ++ " " ++ t,
                      "    [resource] " ++ t)]
           | .arr xs =>
               let t := if xs.length ≤ 200 then templateToString (.arr xs)
                        else templateToString (.arr (xs.take 197)) ++ "..."
               some [("    " ++ c.DIM ++ "[resource]" ++ c.RESET ++ " " ++ t,
                      "    [resource] " ++ t)]
           | _ => none)
      | _ =>
          let tyStr := match ty with
            | some v => if truthy v then templateToString v else "?"
            | none => "?"
          let raw := truncate (stringifyCompact block) 200
          some [("    " ++ c.DIM ++ "[" ++ tyStr ++ "]" ++ c.RESET ++ " " ++ raw,
                 "    [" ++ tyStr ++ "] " ++ raw)]

/-- The `for (const block of content)` loop: records accumulate until a
block throws; the flag records whether the loop aborted. -/
def formatBlocks (blocks : List Json) (c : Colors) : List LogRecord × Bool :=
  match blocks with
  | [] => ([], false)
  | b :: rest =>
      match formatBlock b c with
      | none => ([], true)
      | some recs =>
          let tail := formatBlocks rest c
          (recs ++ tail.1, tail.2)

/-- The generic fall-through of `formatResult`: the whole result
JSON-stringified and truncated to 300 characters, skipped when no longer
than the empty-object rendering. -/
def genericResultRecs (r : Json) (c : Colors) : List LogRecord :=
  let raw := stringifyCompact r
  if raw.length > 2 then
    let display := truncate raw 300
    [("    " ++ c.DIM ++ display ++ c.RESET, "    " ++ display)]
  else []

/-- `formatResult` from the result formatter, as (records, threw).  The
source is a chain of `if (method === ... && Array.isArray(...)) { ...;
return; }` guards; since at most one of the method comparisons can hold,
a guard that matches on method but fails its shape test falls through to
the generic tail, exactly as in the source.  A `true` flag models an
exception escaping to `formatMessage`'s catch: mapping `t.name` /
`r.name` over an array containing `null` throws, as do the `formatBlock`
cases above. -/
def formatResult (method : String) (result : Option Json)
    (_pending : Option PendingRequest) (c : Colors) : List LogRecord × Bool :=
  match result with
  | none => ([], false)
  | some r =>
    if truthy r = false then ([], false)
    else if method = "tools/list" then
      match getField r "tools" with
      | some (.arr tools) =>
          if tools.any Json.isNull then ([], true)
          else
            let names := tools.map (fun t => getField t "name")
            let summary := listSummary names
            ([("    " ++ c.GREEN ++ "(" ++ toString tools.length ++ " tools: " ++ summary ++ ")" ++ c.RESET,
               "    (" ++ toString tools.length ++ " tools: " ++ summary ++ ")")], false)
      | _ => (genericResultRecs r c, false)
    else if method = "resources/list" then
      match getField r "resources" with
      | some (.arr resources) =>
          if resources.any Json.isNull then ([], true)
          else
            let names := resources.map (fun e =>
              match getField e "name" with
              | some nv => if truthy nv then some nv else getField e "uri"
              | none => getField e "uri")
            let summary := listSummary names
            ([("    " ++ c.CYAN ++ "(" ++ toString resources.length ++ " resources: " ++ summary ++ ")" ++ c.RESET,
               "    (" ++ toString resources.length ++ " resources: " ++ summary ++ ")")], false)
      | _ => (genericResultRecs r c, false)
    else if method = "prompts/list" then
      match getField r "prompts" with
      | some (.arr prompts) =>
          if prompts.any Json.isNull then ([], true)
          else
            let names := prompts.map (fun p => getField p "name")
            let summary := listSummary names
            ([("    " ++ c.YELLOW ++ "(" ++ toString prompts.length ++ " prompts: " ++ summary ++ ")" ++ c.RESET,
               "    (" ++ toString prompts.length ++ " prompts: " ++ summary ++ ")")], false)
      | _ => (genericResultRecs r c, false)
    else if method = "tools/call" then
      match getField r "content" with
      | some (.arr content) =>
          let res := formatBlocks content c
          if res.2 then (res.1, true)
          else if truthyOpt (getField r "isError") then
            (res.1 ++ [("    " ++ c.RED ++ "(isError: true)" ++ c.RESET, "    (isError: true)")],
             false)
          else (res.1, false)
      | _ => (genericResultRecs r c, false)
    else if method = "initialize" then
      match getField r "capabilities" with
      | some caps =>
          if truthy caps then
            let capsStr := String.intercalate ", " (jsKeys caps)
            let si := getField r "serverInfo"
            let name := match si with
              | some sv =>
                  (match getField sv "name" with
                   | some nv => if truthy nv then templateToString nv else "?"
                   | none => "?")
              | none => "?"
            let version := match si with
              | some sv =>
                  (match getField sv "version" with
                   | some vv => if truthy vv then templateToString vv else "?"
                   | none => "?")
              | none => "?"
            ([("    " ++ c.MAGENTA ++ name ++ " v" ++ version ++ c.RESET ++ "  capabilities: " ++ capsStr,
               "    " ++ name ++ " v" ++ version ++ "  capabilities: " ++ capsStr)], false)
          else (genericResultRecs r c, false)
      | none => (genericResultRecs r c, false)
    else (genericResultRecs r c, false)
/-- Message direction. -/
inductive Direction where
  | client
  | server

/-- The response branch's `pending?.method || "unknown"` expression: the
stored method of the pending entry, or `"unknown"` when the id is
unregistered (or the stored method is falsy). -/
def reqMethodOf (pending : Option PendingRequest) : String :=
  match pending with
  | some p => if p.method.isEmpty then "unknown" else p.method
  | none => "unknown"

/-- `formatMessage` from the message formatter.  The impure ingredients
are passed explicitly: `ts` is the `timestamp()` string, `now` is
`Date.now()`, and the returned pair carries the `logger.write` records
and the updated `pendingRequests` map.  The branch structure follows the
source: `method && id === undefined` (notification),
`method && id !== undefined` (request), `id !== undefined && !method`
(response), else the unparsable-shape record; parse failures and the
exceptions thrown inside the `try` (property access on a `null` message,
`methodColor(...).startsWith` on a truthy non-string method, and throws
escaping `formatResult`) all land in the `catch`, which appends the
`[raw]` record and leaves the map untouched. -/
def formatMessage (json : String) (direction : Direction) (c : Colors)
    (ts : String) (now : Int) (pendingRequests : PendingMap) :
    List LogRecord × PendingMap :=
  let arrow := match direction with | .client => "→" | .server => "←"
  let label := match direction with | .client => "CLIENT" | .server => "SERVER"
  let dirColor := match direction with | .client => c.CYAN | .server => c.GREEN
  let rawCatch : LogRecord :=
    (c.DIM ++ ts ++ c.RESET ++ " " ++ dirColor ++ arrow ++ " " ++ label ++ c.RESET ++
       "  " ++ c.YELLOW ++ "[raw]" ++ c.RESET ++ " " ++ truncate (jsTrim json) 200,
     ts ++ " " ++ arrow ++ " " ++ label ++ "  [raw] " ++ truncate (jsTrim json) 200)
  match parseJson json with
  | none => ([rawCatch], pendingRequests)
  | some .null => ([rawCatch], pendingRequests)
  | some msg =>
    let id := getField msg "id"
    let methodOpt := getField msg "method"
    match id with
    | none =>
        if truthyOpt methodOpt then
          -- notification branch
          match methodOpt with
          | some (.str method) =>
              let mc := methodColor (some method) c
              let colored := c.DIM ++ ts ++ c.RESET ++ " " ++ dirColor ++ arrow ++ " " ++
                label ++ c.RESET ++ "  " ++ c.BLUE ++ "notification" ++ c.RESET ++ "  " ++
                mc ++ method ++ c.RESET
              let plain := ts ++ " " ++ arrow ++ " " ++ label ++ "  notification  " ++ method
              let paramRecs :=
                match getField msg "params" with
                | some p =>
                    if truthy p ∧ (jsKeys p).length > 0 then
                      let paramStr := truncate (stringifyCompact p) 200
                      [("    " ++ c.DIM ++ paramStr ++ c.RESET, "    " ++ paramStr)]
                    else []
                | none => []
              ((colored, plain) :: paramRecs, pendingRequests)
          | _ => ([rawCatch], pendingRequests)
        else
          -- unparsable shape: neither method nor id
          let raw := truncate (jsTrim json) 200
          ([(c.DIM ++ ts ++ c.RESET ++ " " ++ dirColor ++ arrow ++ " " ++ label ++ c.RESET ++
               "  " ++ c.DIM ++ raw ++ c.RESET,
             ts ++ " " ++ arrow ++ " " ++ label ++ "  " ++ raw)], pendingRequests)
    | some idv =>
        if truthyOpt methodOpt then
          -- request branch
          match methodOpt with
          | some (.str method) =>
              let mc := methodColor (some method) c
              let params := getField msg "params"
              let toolName : Option Json :=
                if method = "tools/call" then
                  match params with
                  | some p =>
                      (match getField p "name" with
                       | some nv => if truthy nv then some nv else none
                       | none => none)
                  | none => none
                else none
              let pending' := mapSet pendingRequests idv
                { method := method, toolName := toolName, ts := now }
              let extra := match toolName with
                | some tn => "  " ++ c.BOLD ++ templateToString tn ++ c.RESET
                | none => ""
              let extraPlain := match toolName with
                | some tn => "  " ++ templateToString tn
                | none => ""
              let colored := c.DIM ++ ts ++ c.RESET ++ " " ++ dirColor ++ arrow ++ " " ++
                label ++ c.RESET ++ "  " ++ c.WHITE ++ "request" ++ c.RESET ++ "  " ++
                mc ++ method ++ c.RESET ++ extra ++ "  " ++ c.DIM ++ "#" ++
                templateToString idv ++ c.RESET
              let plain := ts ++ " " ++ arrow ++ " " ++ label ++ "  request  " ++ method ++
                extraPlain ++ "  #" ++ templateToString idv
              let paramsFallback :=
                match params with
                | some p =>
                    if truthy p ∧ (jsKeys p).length > 0 then
                      let paramStr := truncate (stringifyCompact p) 200
                      [("    " ++ c.DIM ++ paramStr ++ c.RESET, "    " ++ paramStr)]
                    else []
                | none => []
              let argsOpt : Option Json :=
                if method = "tools/call" then
                  match params with
                  | some p => getField p "arguments"
                  | none => none
                else none
              let detailRecs :=
                match argsOpt with
                | some a =>
                    if truthy a then
                      (splitNewlines (stringifyPretty a 0)).map (fun line =>
                        ("    " ++ c.DIM ++ line ++ c.RESET, "    " ++ line))
                    else paramsFallback
                | none => paramsFallback
              ((colored, plain) :: detailRecs, pending')
          | _ => ([rawCatch], pendingRequests)
        else
          -- response branch
          let pending := mapGet pendingRequests idv
          let reqMethod := reqMethodOf pending
          let mc := methodColor (some reqMethod) c
          let elapsed := match pending with
            | some p => toString (now - p.ts) ++ "ms"
            | none => ""
          let error := getField msg "error"
          if truthyOpt error then
            match error with
            | some ev =>
                let code := match getField ev "code" with
                  | some cv => if truthy cv then templateToString cv else "?"
                  | none => "?"
                let errMsg := match getField ev "message" with
                  | some mv => if truthy mv then templateToString mv else "Unknown error"
                  | none => "Unknown error"
                let colored := c.DIM ++ ts ++ c.RESET ++ " " ++ dirColor ++ arrow ++ " " ++
                  label ++ c.RESET ++ "  " ++ c.RED ++ c.BOLD ++ "ERROR" ++ c.RESET ++ "  " ++
                  mc ++ "(" ++ reqMethod ++ " #" ++ templateToString idv ++ ")" ++ c.RESET ++
                  "  " ++ c.DIM ++ elapsed ++ c.RESET
                let plain := ts ++ " " ++ arrow ++ " " ++ label ++ "  ERROR  (" ++ reqMethod ++
                  " #" ++ templateToString idv ++ ")  " ++ elapsed
                ([(colored, plain),
                  ("    " ++ c.RED ++ "[" ++ code ++ "] " ++ errMsg ++ c.RESET,
                   "    [" ++ code ++ "] " ++ errMsg)],
                 mapDelete pendingRequests idv)
            | none => ([rawCatch], pendingRequests)
          else
            let colored := c.DIM ++ ts ++ c.RESET ++ " " ++ dirColor ++ arrow ++ " " ++
              label ++ c.RESET ++ "  " ++ c.WHITE ++ "response" ++ c.RESET ++ "  " ++
              mc ++ reqMethod ++ c.RESET ++ "  " ++ c.DIM ++ "#" ++ templateToString idv ++
              "  " ++ elapsed ++ c.RESET
            let plain := ts ++ " " ++ arrow ++ " " ++ label ++ "  response  " ++ reqMethod ++
              "  #" ++ templateToString idv ++ "  " ++ elapsed
            let res := formatResult reqMethod (getField msg "result") pending c
            if res.2 then ((colored, plain) :: res.1 ++ [rawCatch], pendingRequests)
            else ((colored, plain) :: res.1, mapDelete pendingRequests idv)

/-! ### The log colorizer (`colorize` in `src/watch.ts`)

Each `line.replace(regex, ...)` is modelled by a left-to-right scan over
the character list that, at every position, either applies the (hand
compiled) regular expression and emits its replacement, or copies one
character; global patterns continue scanning after the match, non-global
ones copy the remainder.  This matches the JavaScript `String.replace`
semantics for the concrete patterns used here (all matches are nonempty,
and the word-boundary assertions only need the preceding character, which
the scan threads through as `prev`). -/

/-- JavaScript `\w`. -/
def isWordChar (c : Char) : Bool :=
  c.isAlpha || c.isDigit || c = '_'

/-- JavaScript `\s` (ASCII part; the inputs here are ASCII plus arrows). -/
def isSpaceJS (c : Char) : Bool :=
  c = ' ' || c = '\t' || c = '\n' || c = '\r' || c = '\x0c' || c = '\x0b'

/-- `\b` before the current position. -/
def boundaryBefore : Option Char → Bool
  | none => true
  | some p => !isWordChar p

/-- Generic replace-scan, recursing structurally on a fuel counter
(`scanReplace` passes the input length, which suffices because every step
consumes at least one character).  A matcher returns `(n, repl)` for a
match of `n + 1` characters starting at the current position, replaced by
`repl`; `prev` is the character just before the current position, for the
`\b` assertions. -/
def scanReplaceAux (m : Option Char → List Char → Option (Nat × String)) (global : Bool) :
    Nat → Option Char → List Char → List Char
  | _, _, [] => []
  | 0, _, cs => cs
  | fuel + 1, prev, c :: rest =>
      match m prev (c :: rest) with
      | some (n, repl) =>
          let after := rest.drop n
          if global then
            repl.data ++ scanReplaceAux m global fuel (((c :: rest).take (n + 1)).getLast?) after
          else
            repl.data ++ after
      | none => c :: scanReplaceAux m global fuel (some c) rest

/-- One `line.replace(regex, replacement)` pass. -/
def scanReplace (m : Option Char → List Char → Option (Nat × String)) (global : Bool)
    (cs : List Char) : List Char :=
  scanReplaceAux m global cs.length none cs

/-- Matcher for a literal pattern (no assertions). -/
def matchLit (pat : List Char) (repl : String) (_prev : Option Char) (cs : List Char) :
    Option (Nat × String) :=
  match pat with
  | [] => none
  | _ :: _ => if pat.isPrefixOf cs then some (pat.length - 1, repl) else none

/-- `\b` after a match: the next character, if any, is not a word char. -/
def wordEndsAt (cs : List Char) : Bool :=
  match cs with
  | [] => true
  | d :: _ => !isWordChar d

/-- Matcher for `\bword\b`. -/
def matchWord (w : List Char) (repl : String) (prev : Option Char) (cs : List Char) :
    Option (Nat × String) :=
  match w with
  | [] => none
  | _ :: _ =>
      if boundaryBefore prev ∧ w.isPrefixOf cs ∧ wordEndsAt (cs.drop w.length) then
        some (w.length - 1, repl)
      else none

/-- Matcher for `\binitialize\w*` (wraps the whole match in magenta). -/
def matchInitialize (prev : Option Char) (cs : List Char) : Option (Nat × String) :=
  let w := "initialize".data
  if boundaryBefore prev ∧ w.isPrefixOf cs then
    let ws := (cs.drop w.length).takeWhile isWordChar
    some (w.length + ws.length - 1, "\x1b[35m" ++ String.mk (w ++ ws) ++ "\x1b[0m")
  else none

/-- Matcher for `\b<fam>\S+` (e.g. `\btools\/\S+`), wrapping the match. -/
def matchSlashFam (fam : List Char) (color : String) (prev : Option Char) (cs : List Char) :
    Option (Nat × String) :=
  if boundaryBefore prev ∧ fam.isPrefixOf cs then
    let body := (cs.drop fam.length).takeWhile (fun c => !isSpaceJS c)
    if body.isEmpty then none
    else some (fam.length + body.length - 1, color ++ String.mk (fam ++ body) ++ "\x1b[0m")
  else none

/-- Matcher for `(#\d+)`. -/
def matchHashId (_prev : Option Char) (cs : List Char) : Option (Nat × String) :=
  match cs with
  | '#' :: rest =>
      let ds := rest.takeWhile Char.isDigit
      if ds.isEmpty then none
      else some (ds.length, "\x1b[2m" ++ String.mk ('#' :: ds) ++ "\x1b[0m")
  | _ => none

/-- Matcher for `(\d+ms)`. -/
def matchMs (_prev : Option Char) (cs : List Char) : Option (Nat × String) :=
  match cs with
  | c :: _ =>
      if c.isDigit then
        let ds := cs.takeWhile Char.isDigit
        match cs.drop ds.length with
        | 'm' :: 's' :: _ =>
            some (ds.length + 1, "\x1b[2m" ++ String.mk (ds ++ "ms".data) ++ "\x1b[0m")
        | _ => none
      else none
  | [] => none

/-- The tail of the anchored `^(\d{2}:\d{2}:\d{2}\.\d{3})` test. -/
def timestampShapeRest (cs : List Char) : Bool :=
  match cs with
  | h2 :: c1 :: m1 :: m2 :: c2 :: s1 :: s2 :: d1 :: f1 :: f2 :: f3 :: _ =>
      h2.isDigit && (c1 == ':') && m1.isDigit && m2.isDigit && (c2 == ':') &&
        s1.isDigit && s2.isDigit && (d1 == '.') && f1.isDigit && f2.isDigit && f3.isDigit
  | _ => false

/-- Does the line start with a `HH:MM:SS.mmm` timestamp? -/
def timestampShape (cs : List Char) : Bool :=
  match cs with
  | c :: rest => c.isDigit && timestampShapeRest rest
  | [] => false

/-- The anchored timestamp replacement: dim the first 12 characters. -/
def replaceTimestamp (cs : List Char) : List Char :=
  if timestampShape cs then
    "\x1b[2m".data ++ cs.take 12 ++ "\x1b[0m".data ++ cs.drop 12
  else cs

/-- The `/^\s+\[[-\d]+\]/` error-detail test: leading whitespace, then a
bracketed nonempty run of digits and minus signs. -/
def errorDetailShape (cs : List Char) : Bool :=
  let ws := cs.takeWhile isSpaceJS
  if ws.isEmpty then false
  else
    match cs.drop ws.length with
    | '[' :: r =>
        let body := r.takeWhile (fun c => c.isDigit || c = '-')
        if body.isEmpty then false
        else
          (match r.drop body.length with
           | ']' :: _ => true
           | _ => false)
    | _ => false

/-- The eleven targeted replacement passes of `colorize`, in source order
(timestamp, direction labels, ERROR, message-type keywords, method
families, request ids, elapsed times). -/
def applyReplacements (cs : List Char) : List Char :=
  let l1 := replaceTimestamp cs
  let l2 := scanReplace (matchLit "→ CLIENT".data "\x1b[36m\x1b[1m→ CLIENT\x1b[0m") true l1
  let l3 := scanReplace (matchLit "← SERVER".data "\x1b[32m\x1b[1m← SERVER\x1b[0m") true l2
  let l4 := scanReplace (matchWord "ERROR".data "\x1b[31m\x1b[1mERROR\x1b[0m") true l3
  let l5 := scanReplace (matchWord "notification".data "\x1b[34mnotification\x1b[0m") false l4
  let l6 := scanReplace (matchWord "request".data "\x1b[37mrequest\x1b[0m") false l5
  let l7 := scanReplace (matchWord "response".data "\x1b[37mresponse\x1b[0m") false l6
  let l8 := scanReplace matchInitialize true l7
  let l9 := scanReplace (matchSlashFam "tools/".data "\x1b[32m") true l8
  let l10 := scanReplace (matchSlashFam "resources/".data "\x1b[36m") true l9
  let l11 := scanReplace (matchSlashFam "prompts/".data "\x1b[33m") true l10
  let l12 := scanReplace (matchSlashFam "notifications/".data "\x1b[34m") true l11
  let l13 := scanReplace matchHashId true l12
  scanReplace matchMs true l13

/-- `colorize` from `src/watch.ts`: the replacement passes followed by the
three sequential whole-line `if` wraps (indented-line dim, stderr dim,
error-detail red), each tested against the line value current at that
point. -/
def colorize (line : String) (useColor : Bool) : String :=
  if !useColor then line
  else
    let lA := applyReplacements line.data
    let lB := if "    ".data.isPrefixOf lA then "\x1b[2m".data ++ lA ++ "\x1b[0m".data else lA
    let lC := if "[server stderr]".data.isPrefixOf lB then
        "\x1b[2m".data ++ lB ++ "\x1b[0m".data
      else lB
    let lD := if errorDetailShape lC then "\x1b[31m".data ++ lC ++ "\x1b[0m".data else lC
    String.mk lD

/-! ### `findLatestLog` (`src/watch.ts`)

The file system is passed in as data: `none` models a directory whose
`readdirSync` throws; an entry's `none` modification time models a
`statSync` that throws (file deleted during the scan).  `path.join` is
rendered as `dir ++ "/" ++ name`. -/

/-- The `for (const entry of entries)` loop of `findLatestLog`, carrying
the `latest` / `latestMtime` accumulators (initially `null` / `0`). -/
def findLatestLogLoop (dir : String) (entries : List (String × Option Int))
    (latest : Option String) (latestMtime : Int) : Option String :=
  match entries with
  | [] => latest
  | (name, mt) :: rest =>
      if strEndsWith name ".log" then
        match mt with
        | some m =>
            if m > latestMtime then
              findLatestLogLoop dir rest (some (dir ++ "/" ++ name)) m
            else findLatestLogLoop dir rest latest latestMtime
        | none => findLatestLogLoop dir rest latest latestMtime
      else findLatestLogLoop dir rest latest latestMtime

/-- `findLatestLog` from `src/watch.ts`. -/
def findLatestLog (listing : Option (List (String × Option Int))) (dir : String) :
    Option String :=
  match listing with
  | none => none
  | some entries => findLatestLogLoop dir entries none 0

/-! ### Predicates used by the specifications -/

mutual
/-- Every array anywhere in the value has at most `bound` elements. -/
def arraysBounded (bound : Nat) : Json → Bool
  | .arr xs => decide (xs.length ≤ bound) && arraysBoundedList bound xs
  | .obj fs => arraysBoundedFields bound fs
  | _ => true

/-- `arraysBounded` over array elements. -/
def arraysBoundedList (bound : Nat) : List Json → Bool
  | [] => true
  | x :: xs => arraysBounded bound x && arraysBoundedList bound xs

/-- `arraysBounded` over object member values. -/
def arraysBoundedFields (bound : Nat) : List (String × Json) → Bool
  | [] => true
  | (_, v) :: fs => arraysBounded bound v && arraysBoundedFields bound fs
end

/-- Does `pat` occur (contiguously) in `cs`? -/
def hasSubList (pat : List Char) : List Char → Bool
  | [] => pat.isEmpty
  | c :: cs => pat.isPrefixOf (c :: cs) || hasSubList pat cs

/-- Does `pat` occur as a substring of `s`? -/
def hasSub (s pat : String) : Bool :=
  hasSubList pat.data s.data

/-- Is the value an array or an object (the values `tryFormatJson`
pretty-prints)? -/
def isArrOrObj : Json → Bool
  | .arr _ => true
  | .obj _ => true
  | _ => false

/-! ## Theorems -/

/-- C1: starting from an empty pending-request map, formatting the line
`\x7b"jsonrpc":"2.0","id":1,"method":"tools/list"\x7d` and then the line
`\x7b"jsonrpc":"2.0","id":1,"result":\x7b"tools":[\x7b"name":"echo"\x7d,\x7b"name":"add"\x7d]\x7d\x7d`
emits, in order: one request record containing `#1` and `tools/list`;
then one response record containing `tools/list`, `#1` and the elapsed
token `5ms`, followed by exactly one summary record containing `2 tools`
and `echo, add`; afterwards the pending map has no entry for id 1. -/
theorem formatMessage_toolsList_round_trip :
    (formatMessage
      "\x7b\"jsonrpc\":\"2.0\",\"id\":1,\"method\":\"tools/list\"\x7d"
      Direction.client PLAIN "10:00:00.000" 1000 []).1.map Prod.snd =
      ["10:00:00.000 → CLIENT  request  tools/list  #1"] ∧
    (formatMessage
      "\x7b\"jsonrpc\":\"2.0\",\"id\":1,\"result\":\x7b\"tools\":[\x7b\"name\":\"echo\"\x7d,\x7b\"name\":\"add\"\x7d]\x7d\x7d"
      Direction.server PLAIN "10:00:00.005" 1005
      (formatMessage
        "\x7b\"jsonrpc\":\"2.0\",\"id\":1,\"method\":\"tools/list\"\x7d"
        Direction.client PLAIN "10:00:00.000" 1000 []).2).1.map Prod.snd =
      ["10:00:00.005 ← SERVER  response  tools/list  #1  5ms",
       "    (2 tools: echo, add)"] ∧
    hasSub "10:00:00.000 → CLIENT  request  tools/list  #1" "#1" = true ∧
    hasSub "10:00:00.000 → CLIENT  request  tools/list  #1" "tools/list" = true ∧
    hasSub "10:00:00.005 ← SERVER  response  tools/list  #1  5ms" "5ms" = true ∧
    hasSub "    (2 tools: echo, add)" "2 tools" = true ∧
    hasSub "    (2 tools: echo, add)" "echo, add" = true ∧
    mapGet (formatMessage
      "\x7b\"jsonrpc\":\"2.0\",\"id\":1,\"result\":\x7b\"tools\":[\x7b\"name\":\"echo\"\x7d,\x7b\"name\":\"add\"\x7d]\x7d\x7d"
      Direction.server PLAIN "10:00:00.005" 1005
      (formatMessage
        "\x7b\"jsonrpc\":\"2.0\",\"id\":1,\"method\":\"tools/list\"\x7d"
        Direction.client PLAIN "10:00:00.000" 1000 []).2).2 (Json.num 1) = none :=
  ⟨rfl, rfl, rfl, rfl, rfl, rfl, rfl, rfl⟩

/-- C8: an error response whose id has no pending entry emits exactly two
records — the ERROR header with the request method rendered `unknown` and
the elapsed token omitted (empty), and the `[<code>] <message>` detail
line — and the pending map is untouched (the error branch completes; the
catch branch, which would emit a `[raw]` record instead, is not taken,
i.e. no exception escapes). -/
theorem formatMessage_error_unknown_id :
    formatMessage
      "\x7b\"jsonrpc\":\"2.0\",\"id\":7,\"error\":\x7b\"code\":-32601,\"message\":\"Method not found\"\x7d\x7d"
      Direction.server PLAIN "12:00:00.000" 7 [] =
    ([("12:00:00.000 ← SERVER  ERROR  (unknown #7)  ",
       "12:00:00.000 ← SERVER  ERROR  (unknown #7)  "),
      ("    [-32601] Method not found",
       "    [-32601] Method not found")], []) :=
  rfl

/-- Helper: `tryFormatJson` returns `none` exactly on parse failures and
parsed primitives (including `null`). -/
theorem tryFormatJson_none_iff (s : String) :
    tryFormatJson s = none ↔
      parseJson s = none ∨ ∃ j, parseJson s = some j ∧ isPrimitiveOrNull j = true := by
  unfold tryFormatJson
  cases h : parseJson s with
  | none => simp
  | some j => cases j <;> simp [isPrimitiveOrNull]

/-- Helper: `tryFormatJson` returns a string exactly when the parse
succeeds with an array or object at top level. -/
theorem tryFormatJson_isSome_iff (s : String) :
    (tryFormatJson s).isSome = true ↔
      ∃ j, parseJson s = some j ∧ isArrOrObj j = true := by
  unfold tryFormatJson
  cases h : parseJson s with
  | none => simp
  | some j => cases j <;> simp [isPrimitiveOrNull, isArrOrObj]

/-- C3: `tryFormatJson` returns `none` when the text is syntactically
invalid JSON or parses to a top-level primitive (number, string, boolean
or null), and returns a (pretty-printed) string exactly when the
top-level value is an object or an array. -/
theorem tryFormatJson_classification (s : String) :
    (tryFormatJson s = none ↔
      parseJson s = none ∨ ∃ j, parseJson s = some j ∧ isPrimitiveOrNull j = true) ∧
    ((tryFormatJson s).isSome = true ↔
      ∃ j, parseJson s = some j ∧ isArrOrObj j = true) :=
  ⟨tryFormatJson_none_iff s, tryFormatJson_isSome_iff s⟩

/-- Helper: for a `tools/call` result whose only member is a `content`
array (no `isError`), `formatResult` is exactly the block loop. -/
theorem formatResult_toolsCall_blocks (content : List Json)
    (p : Option PendingRequest) :
    formatResult "tools/call" (some (.obj [("content", .arr content)])) p PLAIN =
      formatBlocks content PLAIN := by
  simp only [formatResult, truthy, getField, List.lookup]
  norm_num
  cases h : (formatBlocks content PLAIN).2 <;> simp [h, truthyOpt] <;> rw [← h]

/-- C2 (counterexample): a `text` block whose text is the JSON array
`[1,2]` does not produce one `[text] [1,2]` record per line as the claim
states — the array takes the pretty-printed path (a `[text]` label plus
one indented record per pretty-printed line). -/
theorem formatResult_text_array_counterexample :
    (formatResult "tools/call"
        (some (.obj [("content",
          .arr [.obj [("type", .str "text"), ("text", .str "[1,2]")]])]))
        none PLAIN).1.map Prod.snd =
      ["    [text]", "        [", "          1,", "          2", "        ]"] ∧
    (formatResult "tools/call"
        (some (.obj [("content",
          .arr [.obj [("type", .str "text"), ("text", .str "[1,2]")]])]))
        none PLAIN).1.map Prod.snd ≠ ["    [text] [1,2]"] := by
  constructor
  · rfl
  · decide

/-- C2 (amended): in `formatResult` for `tools/call`, a `text` content
block whose text does not parse as a JSON object **or array** (primitives
and invalid JSON count as non-match) has its text split on newlines with
exactly one `[text] <line>` record per resulting line; the pretty-printed
path is taken exactly when the text parses to a non-null object or to an
array. -/
theorem formatResult_text_per_line (s : String) (h : tryFormatJson s = none) :
    formatBlock (.obj [("type", .str "text"), ("text", .str s)]) PLAIN =
      some ((splitNewlines s).map (fun line =>
        ("    [text] " ++ line, "    [text] " ++ line))) ∧
    (∀ content p,
      formatResult "tools/call" (some (.obj [("content", .arr content)])) p PLAIN =
        formatBlocks content PLAIN) ∧
    ((tryFormatJson s).isSome = true ↔
      ∃ j, parseJson s = some j ∧ isArrOrObj j = true) := by
  refine ⟨?_, formatResult_toolsCall_blocks, tryFormatJson_isSome_iff s⟩
  simp +decide [formatBlock, getField, List.lookup, templateToString, h, PLAIN]

/-- C2 (witness): the two-line plain text `"hello\nworld"` is not JSON,
and yields exactly one `[text]` record per line. -/
theorem formatResult_text_per_line_witness :
    tryFormatJson "hello\nworld" = none ∧
    formatBlock (.obj [("type", .str "text"), ("text", .str "hello\nworld")]) PLAIN =
      some [("    [text] hello", "    [text] hello"),
            ("    [text] world", "    [text] world")] :=
  ⟨rfl, by rw [(formatResult_text_per_line "hello\nworld" rfl).1]; rfl⟩

/-- C9 (counterexample): an image block whose base64 data string is empty
(length 0) shows `?`, not the `0KB` that the claimed size formula gives
for a data string of length 0 (the `data ? ... : "?"` guard treats the
empty string as falsy). -/
theorem formatResult_image_empty_data_counterexample :
    (formatResult "tools/call"
        (some (.obj [("content", .arr [.obj [("type", .str "image"),
          ("data", .str ""), ("mimeType", .str "image/png")]])]))
        none PLAIN).1.map Prod.snd = ["    [image image/png] ?"] ∧
    (formatResult "tools/call"
        (some (.obj [("content", .arr [.obj [("type", .str "image"),
          ("data", .str ""), ("mimeType", .str "image/png")]])]))
        none PLAIN).1.map Prod.snd ≠ ["    [image image/png] 0KB"] := by
  constructor
  · rfl
  · decide

/-- C9 (amended): an image content block with a **nonempty** base64 data
string of length `len` produces exactly one
`[image <mimeType>] <size>KB` record with
`size = (3 * len + 2048) / 4096`, i.e. `len * 3 / 4 / 1024` rounded to
the nearest KB (half up), exactly `Math.round((len * 3) / 4 / 1024)`;
with no data (or empty data) `?` is shown instead of a size. -/
theorem formatResult_image_block_size (mt s : String) (hs : s ≠ "") (hmt : mt ≠ "") :
    formatBlock (.obj [("type", .str "image"), ("data", .str s),
        ("mimeType", .str mt)]) PLAIN =
      some [("    [image " ++ mt ++ "] " ++ toString (imageSizeKB s.length) ++ "KB",
             "    [image " ++ mt ++ "] " ++ toString (imageSizeKB s.length) ++ "KB")] ∧
    formatBlock (.obj [("type", .str "image"), ("mimeType", .str mt)]) PLAIN =
      some [("    [image " ++ mt ++ "] ?", "    [image " ++ mt ++ "] ?")] ∧
    imageSizeKB s.length = (3 * s.length + 2048) / 4096 ∧
    (∀ content p,
      formatResult "tools/call" (some (.obj [("content", .arr content)])) p PLAIN =
        formatBlocks content PLAIN) := by
  have hs' : s.isEmpty = false := by
    cases h : s.isEmpty
    · rfl
    · exact absurd ((String.isEmpty_iff s).mp h) hs
  have hmt' : mt.isEmpty = false := by
    cases h : mt.isEmpty
    · rfl
    · exact absurd ((String.isEmpty_iff mt).mp h) hmt
  refine ⟨?_, ?_, rfl, formatResult_toolsCall_blocks⟩ <;>
    simp +decide [formatBlock, getField, List.lookup, truthyOpt, truthy,
      templateToString, hs', hmt', PLAIN] <;>
    (try constructor) <;>
    (try (apply String.ext; simp only [String.data_append, List.append_assoc]; try rfl))

/-- C9 (witness): a 4-character data string gives
`(3 * 4 + 2048) / 4096 = 0`, rendered `0KB`. -/
theorem formatResult_image_block_size_witness :
    ("abcd" : String) ≠ "" ∧ ("image/png" : String) ≠ "" ∧
    formatBlock (.obj [("type", .str "image"), ("data", .str "abcd"),
        ("mimeType", .str "image/png")]) PLAIN =
      some [("    [image image/png] 0KB", "    [image image/png] 0KB")] := by
  refine ⟨by decide, by decide, ?_⟩
  rw [(formatResult_image_block_size "image/png" "abcd" (by decide) (by decide)).1]
  rfl

/-- Structural induction over `Json` giving access to array elements and
object member values. -/
theorem Json.recOnAll {P : Json → Prop} (hnull : P .null) (hbool : ∀ b, P (.bool b))
    (hnum : ∀ n, P (.num n)) (hstr : ∀ s, P (.str s))
    (harr : ∀ xs, (∀ x ∈ xs, P x) → P (.arr xs))
    (hobj : ∀ fs, (∀ kv ∈ fs, P kv.2) → P (.obj fs)) :
    ∀ v, P v
  | .null => hnull
  | .bool b => hbool b
  | .num n => hnum n
  | .str s => hstr s
  | .arr xs => harr xs (fun x hx =>
      Json.recOnAll hnull hbool hnum hstr harr hobj x)
  | .obj fs => hobj fs (fun kv hkv =>
      Json.recOnAll hnull hbool hnum hstr harr hobj kv.2)
termination_by v => sizeOf v
decreasing_by
  · have h1 := List.sizeOf_lt_of_mem hx
    simp only [Json.arr.sizeOf_spec]
    omega
  · have h1 := List.sizeOf_lt_of_mem hkv
    cases kv with
    | mk a b =>
        simp only [Prod.mk.sizeOf_spec] at h1
        simp only [Json.obj.sizeOf_spec]
        omega

/-- Helper: `arraysBoundedList` is the conjunction over elements. -/
theorem arraysBoundedList_iff (b : Nat) (ys : List Json) :
    arraysBoundedList b ys = true ↔ ∀ y ∈ ys, arraysBounded b y = true := by
  induction ys with
  | nil => simp [arraysBoundedList]
  | cons y ys ih => simp [arraysBoundedList, ih]

/-- Helper: `arraysBoundedFields` is the conjunction over member values. -/
theorem arraysBoundedFields_iff (b : Nat) (fs : List (String × Json)) :
    arraysBoundedFields b fs = true ↔ ∀ kv ∈ fs, arraysBounded b kv.2 = true := by
  induction fs with
  | nil => simp [arraysBoundedFields]
  | cons kv fs ih =>
      cases kv with
      | mk k v => simp [arraysBoundedFields, ih]

/-- Helper: the fused slice-and-map keeps `min n (length xs)` elements. -/
theorem truncateArraysTake_length (n : Nat) (xs : List Json) (m : Nat) :
    (truncateArraysTake n xs m).length = min n xs.length := by
  induction n generalizing xs with
  | zero => simp [truncateArraysTake]
  | succ n ih =>
      cases xs with
      | nil => simp [truncateArraysTake]
      | cons x rest => simp [truncateArraysTake, ih, Nat.succ_min_succ]

/-- Helper: every kept element is the recursive image of an input element. -/
theorem mem_truncateArraysTake (n : Nat) (xs : List Json) (m : Nat) (y : Json)
    (hy : y ∈ truncateArraysTake n xs m) : ∃ x ∈ xs, y = truncateArrays x m := by
  induction n generalizing xs with
  | zero => simp [truncateArraysTake] at hy
  | succ n ih =>
      cases xs with
      | nil => simp [truncateArraysTake] at hy
      | cons x rest =>
          simp only [truncateArraysTake, List.mem_cons] at hy
          rcases hy with h | h
          · exact ⟨x, List.mem_cons_self x rest, h⟩
          · obtain ⟨x', hx', he⟩ := ih rest h
            exact ⟨x', List.mem_cons_of_mem x hx', he⟩

/-- Helper: every transformed member value is the recursive image of an
input member value. -/
theorem mem_truncateArraysFields (fs : List (String × Json)) (m : Nat) (kv' : String × Json)
    (h : kv' ∈ truncateArraysFields fs m) : ∃ kv ∈ fs, kv'.2 = truncateArrays kv.2 m := by
  induction fs with
  | nil => simp [truncateArraysFields] at h
  | cons kv fs ih =>
      cases kv with
      | mk k v =>
          simp only [truncateArraysFields, List.mem_cons] at h
          rcases h with h | h
          · exact ⟨(k, v), List.mem_cons_self _ fs, by rw [h]⟩
          · obtain ⟨kv0, hkv0, he⟩ := ih h
            exact ⟨kv0, List.mem_cons_of_mem _ hkv0, he⟩

/-- Helper: after `truncateArrays · m`, every array at every nesting level
has at most `m + 1` elements (`m` kept plus the marker). -/
theorem truncateArrays_bounded (v : Json) : ∀ (m : Nat),
    arraysBounded (m + 1) (truncateArrays v m) = true := by
  induction v using Json.recOnAll with
  | hnull => intro m; rfl
  | hbool b => intro m; rfl
  | hnum n => intro m; rfl
  | hstr s => intro m; rfl
  | harr xs ih =>
      intro m
      by_cases hlen : xs.length > m
      · simp only [truncateArrays, if_pos hlen]
        simp only [arraysBounded, Bool.and_eq_true, decide_eq_true_eq]
        constructor
        · simp [truncateArraysTake_length]
          try omega
        · rw [arraysBoundedList_iff]
          intro y hy
          rcases List.mem_append.mp hy with h | h
          · obtain ⟨x, hx, he⟩ := mem_truncateArraysTake m xs m y h
            rw [he]; exact ih x hx m
          · simp at h
            rw [h]; rfl
      · simp only [truncateArrays, if_neg hlen]
        simp only [arraysBounded, Bool.and_eq_true, decide_eq_true_eq]
        constructor
        · simp [truncateArraysTake_length]
          try omega
        · rw [arraysBoundedList_iff]
          intro y hy
          obtain ⟨x, hx, he⟩ := mem_truncateArraysTake m xs m y hy
          rw [he]; exact ih x hx m
  | hobj fs ih =>
      intro m
      simp only [truncateArrays, arraysBounded]
      rw [arraysBoundedFields_iff]
      intro kv' hkv'
      obtain ⟨kv, hkv, he⟩ := mem_truncateArraysFields fs m kv' hkv'
      rw [he]; exact ih kv hkv m

/-- C5: for every JSON value and every `maxItems`, the result of
`truncateArrays` has no array longer than `maxItems + 1` at any nesting
level, and an array of length `L > maxItems` becomes its first `maxItems`
(recursively truncated) elements followed by the marker string whose
numeric suffix is `L - maxItems`. -/
theorem truncateArrays_spec :
    (∀ (v : Json) (m : Nat), arraysBounded (m + 1) (truncateArrays v m) = true) ∧
    (∀ (xs : List Json) (m : Nat), m < xs.length →
      truncateArrays (.arr xs) m =
        .arr (truncateArraysTake m xs m ++
          [.str ("... +" ++ toString (xs.length - m) ++ " more")])) := by
  refine ⟨truncateArrays_bounded, ?_⟩
  intro xs m h
  simp [truncateArrays, h]

/-- C5 (witness): `truncateArrays [1,2,3,4,5] 2 = [1,2,"... +3 more"]`,
bounded by 3. -/
theorem truncateArrays_spec_witness :
    (2 : Nat) < ([Json.num 1, Json.num 2, Json.num 3, Json.num 4, Json.num 5] : List Json).length ∧
    truncateArrays (.arr [.num 1, .num 2, .num 3, .num 4, .num 5]) 2 =
      .arr [.num 1, .num 2, .str "... +3 more"] ∧
    arraysBounded 3 (truncateArrays (.arr [.num 1, .num 2, .num 3, .num 4, .num 5]) 2) = true := by
  have h2 := truncateArrays_spec.2 [Json.num 1, .num 2, .num 3, .num 4, .num 5] 2 (by simp)
  refine ⟨by simp, ?_, truncateArrays_spec.1 _ 2⟩
  rw [h2]
  rfl

/-- Helper: array elements all recurse with `insideArray = true`. -/
theorem removeNoiseFieldsElems_map (xs : List Json) :
    removeNoiseFieldsElems xs = xs.map (fun x => removeNoiseFields x true) := by
  induction xs with
  | nil => rfl
  | cons x rest ih => simp [removeNoiseFieldsElems, ih]

/-- Helper: outside an array no member is dropped. -/
theorem removeNoiseFieldsMembers_false (fs : List (String × Json)) :
    removeNoiseFieldsMembers fs false =
      fs.map (fun kv => (kv.1, removeNoiseFields kv.2 false)) := by
  induction fs with
  | nil => rfl
  | cons kv rest ih =>
      cases kv with
      | mk k v => simp [removeNoiseFieldsMembers, ih]

/-- Helper: only the empty object maps to the empty object outside an
array. -/
theorem removeNoiseFields_false_eq_emptyObj (v : Json)
    (h : removeNoiseFields v false = .obj []) : v = .obj [] := by
  cases v with
  | obj fs =>
      cases fs with
      | nil => rfl
      | cons kv rest =>
          rw [removeNoiseFields, removeNoiseFieldsMembers_false] at h
          simp at h
  | null => exact absurd h (by simp [removeNoiseFields])
  | bool b => exact absurd h (by simp [removeNoiseFields])
  | num n => exact absurd h (by simp [removeNoiseFields])
  | str s => exact absurd h (by simp [removeNoiseFields])
  | arr xs => exact absurd h (by simp [removeNoiseFields])

/-- Helper: inside an array, the surviving members carry no noise key. -/
theorem removeNoiseFieldsMembers_true_noise (gs : List (String × Json))
    (kv : String × Json) (h : kv ∈ removeNoiseFieldsMembers gs true) :
    kv.1 ≠ "id" ∧ kv.1 ≠ "timestamp" ∧ ¬(kv.1 = "graphql" ∧ kv.2 = .obj []) := by
  induction gs with
  | nil => simp [removeNoiseFieldsMembers] at h
  | cons kv0 rest ih =>
      cases kv0 with
      | mk k v =>
          by_cases h1 : (k = "id" ∨ k = "timestamp")
          · rw [removeNoiseFieldsMembers, if_pos ⟨rfl, h1⟩] at h
            · exact ih h
          · by_cases h2 : k = "graphql" ∧ isEmptyObjectLike v = true
            · rw [removeNoiseFieldsMembers, if_neg (fun hc => h1 hc.2),
                if_pos ⟨rfl, h2.1, h2.2⟩] at h
              exact ih h
            · rw [removeNoiseFieldsMembers, if_neg (fun hc => h1 hc.2),
                if_neg (fun hc => h2 ⟨hc.2.1, hc.2.2⟩)] at h
              rcases List.mem_cons.mp h with he | hm
              · subst he
                refine ⟨fun hc => h1 (Or.inl hc), fun hc => h1 (Or.inr hc), ?_⟩
                rintro ⟨hk, hv⟩
                have hve := removeNoiseFields_false_eq_emptyObj v hv
                exact h2 ⟨hk, by rw [hve]; rfl⟩
              · exact ih hm

/-- C4: `removeNoiseFields` strips `id`, `timestamp` and empty-object
`graphql` members exactly from objects that are direct elements of an
array: array elements recurse as inside-array, and an inside-array
object's surviving member list has no `id` or `timestamp` key and no
`graphql` key bound to an empty object; members of a non-array object
(in particular the top level, and one level down through a non-array
container) are all kept with their keys.  On the claim's example the
top-level `data.id` survives while `data.items[0].id` is removed. -/
theorem removeNoiseFields_spec :
    (∀ (b : Bool) (xs : List Json),
      removeNoiseFields (.arr xs) b =
        .arr (xs.map (fun x => removeNoiseFields x true))) ∧
    (∀ (gs : List (String × Json)),
      removeNoiseFields (.obj gs) true = .obj (removeNoiseFieldsMembers gs true)) ∧
    (∀ (gs : List (String × Json)) (kv : String × Json),
      kv ∈ removeNoiseFieldsMembers gs true →
        kv.1 ≠ "id" ∧ kv.1 ≠ "timestamp" ∧ ¬(kv.1 = "graphql" ∧ kv.2 = .obj [])) ∧
    (∀ (fs : List (String × Json)),
      removeNoiseFields (.obj fs) false =
        .obj (fs.map (fun kv => (kv.1, removeNoiseFields kv.2 false)))) ∧
    removeNoiseFields (.obj [("data", .obj [("id", .str "keep"),
        ("items", .arr [.obj [("id", .str "remove")]])])]) false =
      .obj [("data", .obj [("id", .str "keep"),
        ("items", .arr [.obj []])])] := by
  refine ⟨?_, ?_, removeNoiseFieldsMembers_true_noise, ?_, by rfl⟩
  · intro b xs
    rw [removeNoiseFields, removeNoiseFieldsElems_map]
  · intro gs
    rfl
  · intro fs
    rw [removeNoiseFields, removeNoiseFieldsMembers_false]

/-- C4 (witness): in the array element with members `id` and `name`, the
surviving member is `name`, and the theorem certifies it is not `id`. -/
theorem removeNoiseFields_spec_witness :
    (("name", Json.str "n") : String × Json) ∈
      removeNoiseFieldsMembers [("id", Json.str "x"), ("name", Json.str "n")] true ∧
    ¬((("name", Json.str "n") : String × Json).1 = "id") := by
  have hm : (("name", Json.str "n") : String × Json) ∈
      removeNoiseFieldsMembers [("id", Json.str "x"), ("name", Json.str "n")] true :=
    List.mem_singleton.mpr rfl
  exact ⟨hm, (removeNoiseFields_spec.2.2.1 _ _ hm).1⟩

/-- Helper: when no remaining `.log` entry with a successful stat beats
the running maximum, the loop keeps its accumulator. -/
theorem findLatestLogLoop_stay (d : String) (entries : List (String × Option Int)) :
    ∀ (latest : Option String) (lm : Int),
    (∀ e ∈ entries, ∀ m : Int, strEndsWith e.1 ".log" = true → e.2 = some m → m ≤ lm) →
    findLatestLogLoop d entries latest lm = latest := by
  induction entries with
  | nil => intro latest lm h; rfl
  | cons e rest ih =>
      intro latest lm h
      cases e with
      | mk name mt =>
          by_cases hend : strEndsWith name ".log" = true
          · cases mt with
            | some m =>
                have hm : m ≤ lm := h (name, some m) (List.mem_cons_self _ _) m hend rfl
                rw [findLatestLogLoop, if_pos hend]
                rw [if_neg (by omega)]
                exact ih latest lm (fun e he => h e (List.mem_cons_of_mem _ he))
            | none =>
                rw [findLatestLogLoop, if_pos hend]
                exact ih latest lm (fun e he => h e (List.mem_cons_of_mem _ he))
          · cases mt with
            | some m =>
                rw [findLatestLogLoop, if_neg hend]
                exact ih latest lm (fun e he => h e (List.mem_cons_of_mem _ he))
            | none =>
                rw [findLatestLogLoop, if_neg hend]
                exact ih latest lm (fun e he => h e (List.mem_cons_of_mem _ he))

/-- Helper: when some remaining `.log` entry beats the running maximum,
the loop returns the path of an entry carrying the maximal
modification time. -/
theorem findLatestLogLoop_beats (d : String) (entries : List (String × Option Int)) :
    ∀ (latest : Option String) (lm : Int),
    (∃ e ∈ entries, ∃ m : Int, strEndsWith e.1 ".log" = true ∧ e.2 = some m ∧ lm < m) →
    ∃ nb mb, (nb, some mb) ∈ entries ∧ strEndsWith nb ".log" = true ∧ lm < mb ∧
      findLatestLogLoop d entries latest lm = some (d ++ "/" ++ nb) ∧
      (∀ n' m', (n', some m') ∈ entries → strEndsWith n' ".log" = true → m' ≤ mb) := by
  induction entries with
  | nil =>
      intro latest lm h
      simp at h
  | cons e rest ih =>
      intro latest lm h
      cases e with
      | mk name mt =>
          by_cases hcase : strEndsWith name ".log" = true ∧ ∃ m : Int, mt = some m ∧ lm < m
          · obtain ⟨hend, m, hmt, hlt⟩ := hcase
            subst hmt
            rw [findLatestLogLoop, if_pos hend, if_pos (by omega)]
            by_cases hrest : ∃ e ∈ rest, ∃ m' : Int,
                strEndsWith e.1 ".log" = true ∧ e.2 = some m' ∧ m < m'
            · obtain ⟨nb, mb, hmem, hend', hlt', heq, hbound⟩ :=
                ih (some (d ++ "/" ++ name)) m hrest
              refine ⟨nb, mb, List.mem_cons_of_mem _ hmem, hend', by omega, heq, ?_⟩
              intro n' m' hmem' hend''
              rcases List.mem_cons.mp hmem' with he | hm
              · cases he
                omega
              · exact hbound n' m' hm hend''
            · push_neg at hrest
              have hstay : findLatestLogLoop d rest (some (d ++ "/" ++ name)) m =
                  some (d ++ "/" ++ name) := by
                apply findLatestLogLoop_stay
                intro e he m' hend' hmt'
                have := hrest e he m' hend' hmt'
                omega
              refine ⟨name, m, List.mem_cons_self _ _, hend, hlt, hstay, ?_⟩
              intro n' m' hmem' hend''
              rcases List.mem_cons.mp hmem' with he | hm
              · cases he
                omega
              · have := hrest (n', some m') hm m' hend'' rfl
                omega
          · -- the head does not beat the accumulator: it is skipped either way
            have hnext : findLatestLogLoop d ((name, mt) :: rest) latest lm =
                findLatestLogLoop d rest latest lm := by
              by_cases hend : strEndsWith name ".log" = true
              · cases mt with
                | some m =>
                    have : ¬ lm < m := fun hlt => hcase ⟨hend, m, rfl, hlt⟩
                    rw [findLatestLogLoop, if_pos hend, if_neg (by omega)]
                | none => rw [findLatestLogLoop, if_pos hend]
              · cases mt with
                | some m => rw [findLatestLogLoop, if_neg hend]
                | none => rw [findLatestLogLoop, if_neg hend]
            have hex : ∃ e ∈ rest, ∃ m : Int,
                strEndsWith e.1 ".log" = true ∧ e.2 = some m ∧ lm < m := by
              obtain ⟨e, he, m, h1, h2, h3⟩ := h
              rcases List.mem_cons.mp he with hhead | hm
              · exfalso
                subst hhead
                exact hcase ⟨h1, m, h2, h3⟩
              · exact ⟨e, hm, m, h1, h2, h3⟩
            obtain ⟨nb, mb, hmem, hend', hlt', heq, hbound⟩ := ih latest lm hex
            refine ⟨nb, mb, List.mem_cons_of_mem _ hmem, hend', hlt',
              by rw [hnext]; exact heq, ?_⟩
            intro n' m' hmem' hend''
            rcases List.mem_cons.mp hmem' with he | hm
            · cases he
              have : ¬ lm < m' := fun hlt => hcase ⟨hend'', m', rfl, hlt⟩
              omega
            · exact hbound n' m' hm hend''

/-- C7 (counterexample): a directory whose only entry is `a.log` with
modification time `0` makes `findLatestLog` return `none`, although a
matching entry exists and the claim promises its path — the loop's
accumulator starts at `0` and only a strictly greater `mtimeMs` is ever
taken. -/
theorem findLatestLog_zero_mtime_counterexample :
    strEndsWith "a.log" ".log" = true ∧
    findLatestLog (some [("a.log", some 0)]) "logs" = none ∧
    findLatestLog (some [("a.log", some 0)]) "logs" ≠ some "logs/a.log" := by
  refine ⟨rfl, rfl, ?_⟩
  intro h
  exact Option.noConfusion h

/-- C7 (amended): `findLatestLog` considers only entries ending in
`.log`; it returns `none` when the directory is absent, empty, has no
matching entries, or no matching entry has positive modification time;
otherwise it returns `dir ++ "/" ++ name` for a matching entry whose
modification time is maximal among the matching entries — selection is
strictly by modification time, never by name (a newer `aaa.log` beats an
older `zzz.log`). -/
theorem findLatestLog_spec :
    (∀ d, findLatestLog none d = none) ∧
    (∀ d entries, (∀ e ∈ entries, strEndsWith e.1 ".log" = false) →
      findLatestLog (some entries) d = none) ∧
    (∀ d entries,
      (∀ e ∈ entries, ∀ m : Int, strEndsWith e.1 ".log" = true → e.2 = some m → m ≤ 0) →
      findLatestLog (some entries) d = none) ∧
    (∀ (d : String) entries (name : String) (m : Int),
      (name, some m) ∈ entries → strEndsWith name ".log" = true → 0 < m →
      ∃ nb mb, (nb, some mb) ∈ entries ∧ strEndsWith nb ".log" = true ∧ 0 < mb ∧
        findLatestLog (some entries) d = some (d ++ "/" ++ nb) ∧
        (∀ n' m', (n', some m') ∈ entries → strEndsWith n' ".log" = true → m' ≤ mb)) ∧
    (∀ d, findLatestLog (some [("zzz.log", some 1), ("aaa.log", some 2)]) d =
      some (d ++ "/" ++ "aaa.log")) := by
  refine ⟨fun d => rfl, ?_, ?_, ?_, ?_⟩
  · intro d entries h
    apply findLatestLogLoop_stay
    intro e he m hend hmt
    rw [h e he] at hend
    cases hend
  · intro d entries h
    apply findLatestLogLoop_stay
    intro e he m hend hmt
    exact h e he m hend hmt
  · intro d entries name m hmem hend hpos
    exact findLatestLogLoop_beats d entries none 0
      ⟨(name, some m), hmem, m, hend, rfl, hpos⟩
  · intro d
    rfl

/-- C7 (witness): a directory with no positive-mtime `.log` entry yields
`none`; mtime order beats lexical filename order. -/
theorem findLatestLog_spec_witness :
    findLatestLog (some [("skip.txt", some 5), ("old.log", some (-3))]) "d" = none ∧
    findLatestLog (some [("zzz.log", some 1), ("aaa.log", some 2)]) "d" = some "d/aaa.log" := by
  constructor
  · apply findLatestLog_spec.2.2.1 "d"
    intro e he m hend hmt
    rcases List.mem_cons.mp he with h1 | h1
    · subst h1
      exact absurd hend (by decide)
    · rcases List.mem_cons.mp h1 with h2 | h2
      · subst h2
        injection hmt with h3
        omega
      · simp at h2
  · have := findLatestLog_spec.2.2.2.2 "d"
    rw [this]
    rfl

/-- Helper: an invalid-JSON line leaves the pending map unchanged. -/
theorem formatMessage_invalid_json_map (json : String) (dir : Direction) (c : Colors)
    (ts : String) (now : Int) (st : PendingMap) (h : parseJson json = none) :
    (formatMessage json dir c ts now st).2 = st := by
  simp only [formatMessage, h]

/-- Helper: a line without an id (notification, unparsable shape, or a
primitive/null message) leaves the pending map unchanged. -/
theorem formatMessage_no_id_map (json : String) (dir : Direction) (c : Colors)
    (ts : String) (now : Int) (st : PendingMap) (msg : Json)
    (h : parseJson json = some msg) (hid : getField msg "id" = none) :
    (formatMessage json dir c ts now st).2 = st := by
  cases msg with
  | null => simp only [formatMessage, h]
  | bool b => simp only [formatMessage, h, getField, truthyOpt]; rfl
  | num n => simp only [formatMessage, h, getField, truthyOpt]; rfl
  | str s => simp only [formatMessage, h, getField, truthyOpt]; rfl
  | arr xs => simp only [formatMessage, h, getField, truthyOpt]; rfl
  | obj fs =>
      rw [formatMessage.eq_def]
      simp only [h, hid]
      split
      · cases hm : getField (.obj fs) "method" with
        | none => rfl
        | some mv => cases mv <;> rfl
      · rfl

/-- Helper: a request line with a (nonempty) string method registers its
entry under the id. -/
theorem formatMessage_request_map (json : String) (dir : Direction) (c : Colors)
    (ts : String) (now : Int) (st : PendingMap) (msg idv : Json) (s : String)
    (h : parseJson json = some msg) (hid : getField msg "id" = some idv)
    (hm : getField msg "method" = some (.str s)) (hs : s ≠ "") :
    ∃ tn, (formatMessage json dir c ts now st).2 =
      mapSet st idv { method := s, toolName := tn, ts := now } := by
  have hse : s.isEmpty = false := by
    cases he : s.isEmpty
    · rfl
    · exact absurd ((String.isEmpty_iff s).mp he) hs
  cases msg with
  | null => exact Option.noConfusion hid
  | bool b => exact Option.noConfusion hid
  | num n => exact Option.noConfusion hid
  | str s' => exact Option.noConfusion hid
  | arr xs => exact Option.noConfusion hid
  | obj fs =>
      rw [formatMessage.eq_def]
      simp only [h, hid, hm, truthyOpt, truthy, hse]
      exact ⟨_, rfl⟩

/-- Helper: a request or notification line with a truthy non-string
method throws inside the try (at `methodColor`'s `startsWith`) before the
`pendingRequests.set`, so the map is unchanged. -/
theorem formatMessage_nonstring_method_map (json : String) (dir : Direction) (c : Colors)
    (ts : String) (now : Int) (st : PendingMap) (msg idv mv : Json)
    (h : parseJson json = some msg) (hid : getField msg "id" = some idv)
    (hm : getField msg "method" = some mv) (htr : truthy mv = true)
    (hns : ∀ s, mv ≠ .str s) :
    (formatMessage json dir c ts now st).2 = st := by
  cases msg with
  | null => exact Option.noConfusion hid
  | bool b => exact Option.noConfusion hid
  | num n => exact Option.noConfusion hid
  | str s' => exact Option.noConfusion hid
  | arr xs => exact Option.noConfusion hid
  | obj fs =>
      rw [formatMessage.eq_def]
      simp only [h, hid, hm, truthyOpt, htr]
      cases mv with
      | str s => exact absurd rfl (hns s)
      | null => cases htr
      | bool b => rfl
      | num n => rfl
      | arr xs => rfl
      | obj gs => rfl

/-- Helper: an error response deletes the entry for its id. -/
theorem formatMessage_response_error_map (json : String) (dir : Direction) (c : Colors)
    (ts : String) (now : Int) (st : PendingMap) (msg idv : Json)
    (h : parseJson json = some msg) (hid : getField msg "id" = some idv)
    (hm : truthyOpt (getField msg "method") = false)
    (herr : truthyOpt (getField msg "error") = true) :
    (formatMessage json dir c ts now st).2 = mapDelete st idv := by
  cases msg with
  | null => exact Option.noConfusion hid
  | bool b => exact Option.noConfusion hid
  | num n => exact Option.noConfusion hid
  | str s' => exact Option.noConfusion hid
  | arr xs => exact Option.noConfusion hid
  | obj fs =>
      rw [formatMessage.eq_def]
      simp only [h, hid, hm, herr]
      cases he : getField (.obj fs) "error" with
      | none => rw [he] at herr; cases herr
      | some ev => simp only [Bool.false_eq_true, if_false, if_true]

/-- Helper: a success response deletes the entry for its id exactly when
the result formatter does not throw; a throw skips the deletion. -/
theorem formatMessage_response_success_map (json : String) (dir : Direction) (c : Colors)
    (ts : String) (now : Int) (st : PendingMap) (msg idv : Json)
    (h : parseJson json = some msg) (hid : getField msg "id" = some idv)
    (hm : truthyOpt (getField msg "method") = false)
    (herr : truthyOpt (getField msg "error") = false) :
    ((formatResult (reqMethodOf (mapGet st idv)) (getField msg "result")
        (mapGet st idv) c).2 = false →
      (formatMessage json dir c ts now st).2 = mapDelete st idv) ∧
    ((formatResult (reqMethodOf (mapGet st idv)) (getField msg "result")
        (mapGet st idv) c).2 = true →
      (formatMessage json dir c ts now st).2 = st) := by
  cases msg with
  | null => exact Option.noConfusion hid
  | bool b => exact Option.noConfusion hid
  | num n => exact Option.noConfusion hid
  | str s' => exact Option.noConfusion hid
  | arr xs => exact Option.noConfusion hid
  | obj fs =>
      constructor <;> intro hres <;>
        (rw [formatMessage.eq_def]
         simp only [h, hid, hm, herr]
         simp only [Bool.false_eq_true, if_false]
         simp only [hres]
         rfl)

/-- C10 (amended): `formatMessage` mutates the pending-request map only
in two cases — a request line (id present, method a truthy **string**)
inserts or overwrites the entry for that id, and a response line
(id present, method falsy) deletes the entry for that id **unless** the
result formatter throws, in which case the exception is caught, a raw
record is logged, and the map is unchanged.  A request line with a truthy
non-string method also throws before registration and leaves the map
unchanged; every notification line, unparsable-shape line, and
invalid-JSON line leaves the map completely unchanged. -/
theorem formatMessage_map_effects (json : String) (dir : Direction) (c : Colors)
    (ts : String) (now : Int) (st : PendingMap) :
    (parseJson json = none → (formatMessage json dir c ts now st).2 = st) ∧
    (∀ msg, parseJson json = some msg → getField msg "id" = none →
      (formatMessage json dir c ts now st).2 = st) ∧
    (∀ msg idv (s : String), parseJson json = some msg → getField msg "id" = some idv →
      getField msg "method" = some (.str s) → s ≠ "" →
      ∃ tn, (formatMessage json dir c ts now st).2 =
        mapSet st idv { method := s, toolName := tn, ts := now }) ∧
    (∀ msg idv mv, parseJson json = some msg → getField msg "id" = some idv →
      getField msg "method" = some mv → truthy mv = true → (∀ s, mv ≠ .str s) →
      (formatMessage json dir c ts now st).2 = st) ∧
    (∀ msg idv, parseJson json = some msg → getField msg "id" = some idv →
      truthyOpt (getField msg "method") = false →
      (truthyOpt (getField msg "error") = true →
        (formatMessage json dir c ts now st).2 = mapDelete st idv) ∧
      (truthyOpt (getField msg "error") = false →
        ((formatResult (reqMethodOf (mapGet st idv)) (getField msg "result")
            (mapGet st idv) c).2 = false →
          (formatMessage json dir c ts now st).2 = mapDelete st idv) ∧
        ((formatResult (reqMethodOf (mapGet st idv)) (getField msg "result")
            (mapGet st idv) c).2 = true →
          (formatMessage json dir c ts now st).2 = st))) := by
  refine ⟨formatMessage_invalid_json_map json dir c ts now st,
    fun msg h hid => formatMessage_no_id_map json dir c ts now st msg h hid,
    fun msg idv s h hid hm hs => formatMessage_request_map json dir c ts now st msg idv s h hid hm hs,
    fun msg idv mv h hid hm htr hns =>
      formatMessage_nonstring_method_map json dir c ts now st msg idv mv h hid hm htr hns,
    fun msg idv h hid hmf => ⟨fun herr =>
      formatMessage_response_error_map json dir c ts now st msg idv h hid hmf herr,
      fun herr => formatMessage_response_success_map json dir c ts now st msg idv h hid hmf herr⟩⟩

/-- C10 (counterexample): a response line whose result makes the
formatter throw (`tools` containing `null` under a pending `tools/list`
entry) does **not** delete the pending entry for id 1, contradicting the
claim that every response line deletes the entry for its id. -/
theorem formatMessage_throw_skips_delete_counterexample :
    mapGet (formatMessage "\x7b\"id\":1,\"result\":\x7b\"tools\":[null]\x7d\x7d"
        Direction.server PLAIN "12:00:00.000" 5
        [(Json.num 1, { method := "tools/list", toolName := none, ts := 0 })]).2
      (Json.num 1) =
      some { method := "tools/list", toolName := none, ts := 0 } ∧
    mapGet (formatMessage "\x7b\"id\":1,\"result\":\x7b\"tools\":[null]\x7d\x7d"
        Direction.server PLAIN "12:00:00.000" 5
        [(Json.num 1, { method := "tools/list", toolName := none, ts := 0 })]).2
      (Json.num 1) ≠ none :=
  ⟨rfl, fun h => Option.noConfusion h⟩

/-- C10 (witness): an error response for a registered id deletes exactly
that entry. -/
theorem formatMessage_map_effects_witness :
    (formatMessage "\x7b\"id\":3,\"error\":\x7b\"code\":1\x7d\x7d" Direction.server PLAIN
        "t" 5 [(Json.num 3, { method := "m", toolName := none, ts := 0 })]).2 =
      mapDelete [(Json.num 3, { method := "m", toolName := none, ts := 0 })] (Json.num 3) :=
  ((formatMessage_map_effects "\x7b\"id\":3,\"error\":\x7b\"code\":1\x7d\x7d"
      Direction.server PLAIN "t" 5
      [(Json.num 3, { method := "m", toolName := none, ts := 0 })]).2.2.2.2
    (Json.obj [("id", Json.num 3), ("error", Json.obj [("code", Json.num 1)])])
    (Json.num 3) rfl rfl rfl).1 rfl

/-- Helper: a prefix test fails when the head characters differ. -/
theorem isPrefixOf_cons_ne {c c' : Char} (p cs : List Char) (h : (c == c') = false) :
    (c :: p).isPrefixOf (c' :: cs) = false := by
  simp [List.isPrefixOf, h]

/-- Helper: a scan whose matcher never fires at a space copies the space
and continues. -/
theorem scanReplaceAux_space (m : Option Char → List Char → Option (Nat × String))
    (g : Bool) (fuel : Nat) (prev : Option Char) (cs : List Char)
    (hm : m prev (' ' :: cs) = none) :
    scanReplaceAux m g (fuel + 1) prev (' ' :: cs) =
      ' ' :: scanReplaceAux m g fuel (some ' ') cs := by
  rw [scanReplaceAux, hm]

/-- Helper: a replacement pass whose matcher never fires at a space
preserves the four leading spaces verbatim. -/
theorem scanReplace_sp4 (m : Option Char → List Char → Option (Nat × String))
    (g : Bool) (t : List Char) (hm : ∀ prev cs, m prev (' ' :: cs) = none) :
    scanReplace m g (' ' :: ' ' :: ' ' :: ' ' :: t) =
      ' ' :: ' ' :: ' ' :: ' ' :: scanReplaceAux m g t.length (some ' ') t := by
  unfold scanReplace
  simp only [List.length_cons]
  rw [scanReplaceAux_space m g _ _ _ (hm _ _), scanReplaceAux_space m g _ _ _ (hm _ _),
    scanReplaceAux_space m g _ _ _ (hm _ _), scanReplaceAux_space m g _ _ _ (hm _ _)]

/-- Helper: a word matcher whose word starts with a non-space never fires
at a space. -/
theorem matchWord_space (c0 : Char) (p : List Char) (repl : String)
    (prev : Option Char) (cs : List Char) (hc : (c0 == ' ') = false) :
    matchWord (c0 :: p) repl prev (' ' :: cs) = none := by
  rw [matchWord, if_neg]
  rintro ⟨h1, h2, h3⟩
  rw [isPrefixOf_cons_ne p cs hc] at h2
  cases h2

/-- Helper: the `initialize` matcher never fires at a space. -/
theorem matchInitialize_space (prev : Option Char) (cs : List Char) :
    matchInitialize prev (' ' :: cs) = none := by
  rw [matchInitialize]
  rw [if_neg]
  rintro ⟨h1, h2⟩
  rw [show ("initialize".data : List Char) = 'i' :: "nitialize".data from rfl] at h2
  rw [isPrefixOf_cons_ne _ _ (by decide)] at h2
  cases h2

/-- Helper: a method-family matcher never fires at a space. -/
theorem matchSlashFam_space (c0 : Char) (p : List Char) (color : String)
    (prev : Option Char) (cs : List Char) (hc : (c0 == ' ') = false) :
    matchSlashFam (c0 :: p) color prev (' ' :: cs) = none := by
  rw [matchSlashFam, if_neg]
  rintro ⟨h1, h2⟩
  rw [isPrefixOf_cons_ne p cs hc] at h2
  cases h2

/-- Helper: existential form of `scanReplace_sp4`. -/
theorem scanReplace_keeps_sp4 (m : Option Char → List Char → Option (Nat × String))
    (g : Bool) (x : List Char) (hm : ∀ prev cs, m prev (' ' :: cs) = none) :
    ∃ y, scanReplace m g (' ' :: ' ' :: ' ' :: ' ' :: x) =
      ' ' :: ' ' :: ' ' :: ' ' :: y :=
  ⟨_, scanReplace_sp4 m g x hm⟩

/-- Helper: none of the eleven replacement passes can touch the four
leading spaces of an indented line (no pattern matches at a space, and
the anchored timestamp pattern requires a digit first). -/
theorem applyReplacements_sp4 (t : List Char) :
    ∃ u, applyReplacements (' ' :: ' ' :: ' ' :: ' ' :: t) =
      ' ' :: ' ' :: ' ' :: ' ' :: u := by
  simp only [applyReplacements]
  rw [show replaceTimestamp (' ' :: ' ' :: ' ' :: ' ' :: t) =
      ' ' :: ' ' :: ' ' :: ' ' :: t from rfl]
  obtain ⟨u1, h1⟩ := scanReplace_keeps_sp4 (matchLit "→ CLIENT".data "\x1b[36m\x1b[1m→ CLIENT\x1b[0m") true t (fun prev cs => rfl)
  rw [h1]
  obtain ⟨u2, h2⟩ := scanReplace_keeps_sp4 (matchLit "← SERVER".data "\x1b[32m\x1b[1m← SERVER\x1b[0m") true u1 (fun prev cs => rfl)
  rw [h2]
  obtain ⟨u3, h3⟩ := scanReplace_keeps_sp4 (matchWord "ERROR".data "\x1b[31m\x1b[1mERROR\x1b[0m") true u2
    (fun prev cs => matchWord_space 'E' _ _ prev cs (by decide))
  rw [h3]
  obtain ⟨u4, h4⟩ := scanReplace_keeps_sp4 (matchWord "notification".data "\x1b[34mnotification\x1b[0m") false u3
    (fun prev cs => matchWord_space 'n' _ _ prev cs (by decide))
  rw [h4]
  obtain ⟨u5, h5⟩ := scanReplace_keeps_sp4 (matchWord "request".data "\x1b[37mrequest\x1b[0m") false u4
    (fun prev cs => matchWord_space 'r' _ _ prev cs (by decide))
  rw [h5]
  obtain ⟨u6, h6⟩ := scanReplace_keeps_sp4 (matchWord "response".data "\x1b[37mresponse\x1b[0m") false u5
    (fun prev cs => matchWord_space 'r' _ _ prev cs (by decide))
  rw [h6]
  obtain ⟨u7, h7⟩ := scanReplace_keeps_sp4 matchInitialize true u6
    (fun prev cs => matchInitialize_space prev cs)
  rw [h7]
  obtain ⟨u8, h8⟩ := scanReplace_keeps_sp4 (matchSlashFam "tools/".data "\x1b[32m") true u7
    (fun prev cs => matchSlashFam_space 't' _ _ prev cs (by decide))
  rw [h8]
  obtain ⟨u9, h9⟩ := scanReplace_keeps_sp4 (matchSlashFam "resources/".data "\x1b[36m") true u8
    (fun prev cs => matchSlashFam_space 'r' _ _ prev cs (by decide))
  rw [h9]
  obtain ⟨u10, h10⟩ := scanReplace_keeps_sp4 (matchSlashFam "prompts/".data "\x1b[33m") true u9
    (fun prev cs => matchSlashFam_space 'p' _ _ prev cs (by decide))
  rw [h10]
  obtain ⟨u11, h11⟩ := scanReplace_keeps_sp4 (matchSlashFam "notifications/".data "\x1b[34m") true u10
    (fun prev cs => matchSlashFam_space 'n' _ _ prev cs (by decide))
  rw [h11]
  obtain ⟨u12, h12⟩ := scanReplace_keeps_sp4 matchHashId true u11 (fun prev cs => rfl)
  rw [h12]
  obtain ⟨u13, h13⟩ := scanReplace_keeps_sp4 matchMs true u12 (fun prev cs => rfl)
  rw [h13]
  exact ⟨u13, rfl⟩

/-- C6: on a line that begins with four spaces and also matches the
indented bracketed-signed-integer error-detail pattern, `colorize` wraps
the whole line in the dim code and not in the whole-line red code: after
the replacement passes the line still begins with four spaces, so the
indentation branch fires, and the dim escape prefix then defeats both the
stderr test and the error-detail test (whose `\s+` anchor cannot match
the escape character), so the red wrap is not applied — the
indentation-dim branch takes precedence. -/
theorem colorize_indent_precedence (line : String)
    (hpre : strStartsWith line "    " = true)
    (hdetail : errorDetailShape line.data = true) :
    colorize line true =
      String.mk ("\x1b[2m".data ++ applyReplacements line.data ++ "\x1b[0m".data) ∧
    strStartsWith (colorize line true) "\x1b[2m" = true ∧
    strStartsWith (colorize line true) "\x1b[31m" = false := by
  obtain ⟨t, ht⟩ : ∃ t, line.data = ' ' :: ' ' :: ' ' :: ' ' :: t := by
    have hp : ("    ".data : List Char) <+: line.data :=
      List.isPrefixOf_iff_prefix.mp hpre
    obtain ⟨t, ht⟩ := hp
    exact ⟨t, ht.symm⟩
  obtain ⟨u, hu⟩ := applyReplacements_sp4 t
  have hc : "    ".data.isPrefixOf (' ' :: ' ' :: ' ' :: ' ' :: u) = true := by
    simp [List.isPrefixOf]
  have hmain : colorize line true =
      String.mk ("\x1b[2m".data ++ applyReplacements line.data ++ "\x1b[0m".data) := by
    simp only [colorize]
    rw [ht, hu]
    simp only [hc]
    rfl
  refine ⟨hmain, ?_, ?_⟩ <;> rw [hmain] <;> rw [ht, hu]
  · simp [strStartsWith, List.isPrefixOf]
  · rfl

/-- C6 (witness): the error-detail line from the test suite is dimmed,
not reddened. -/
theorem colorize_indent_precedence_witness :
    strStartsWith "    [-32601] Method not found" "    " = true ∧
    errorDetailShape ("    [-32601] Method not found").data = true ∧
    strStartsWith (colorize "    [-32601] Method not found" true) "\x1b[2m" = true ∧
    strStartsWith (colorize "    [-32601] Method not found" true) "\x1b[31m" = false := by
  refine ⟨by decide, by decide, ?_, ?_⟩
  · exact (colorize_indent_precedence "    [-32601] Method not found"
      (by decide) (by decide)).2.1
  · exact (colorize_indent_precedence "    [-32601] Method not found"
      (by decide) (by decide)).2.2
